import Mathlib

/-
Verification development for the retropanel virtual-controller core.

Modelling conventions (shallow embedding of the TypeScript source):

* JavaScript numbers are modelled as exact rationals (ℚ).  `Math.sqrt` is
  modelled either by an explicit function parameter `sqrtFn : ℚ → ℚ`
  (constrained per theorem only at the values actually encountered) or, for
  concrete executions, by `ratSqrt`, which agrees with the real square root
  on perfect squares of rationals.  In the grab system `Math.sqrt` is only
  used inside comparisons of distances; since the real square root is
  strictly monotone on nonnegative inputs, those comparisons are modelled
  directly on squared distances (capture radius 0.10 becomes 0.01 squared).
* `Math.atan2` is an explicit function parameter; no claim constrains the
  numeric value of an angle.
* The collision geometry of `ButtonSystem.update` (world/local transforms,
  the tolerance-expanded bounding box) is abstracted per hand into a
  `HandObs` observation: whether the fingertip was resolved, whether the
  resolved point is inside the expanded box, and the computed pressing
  distance `surfaceY - localY`.  Everything downstream of those quantities
  is translated literally.
* The stick mesh's vertical coordinate is never changed by the analog-stick
  system (the attached branch writes `initialPos.y` back and the detached
  branch interpolates between two points with equal y), so a stick's world
  position is carried as its horizontal offset `(offX, offZ)` from the
  recorded initial (rest) position.
-/

/-! ## Generic helpers -/

/-- Clamp, as the specification words it: `clamp(x, lo, hi)`. -/
def clampQ (lo hi x : ℚ) : ℚ := max lo (min hi x)

/-- Exact rational square root model of `Math.sqrt`: on a nonnegative
rational whose numerator times denominator is a perfect square (in
particular on squares of rationals) it returns the exact square root; it
always returns a nonnegative value and never overestimates. -/
def ratSqrt (q : ℚ) : ℚ :=
  if q ≤ 0 then 0 else (Nat.sqrt (q.num.toNat * q.den) : ℚ) / (q.den : ℚ)

/-- A list paired with positions, used to model indexed iteration over the
entity query results. -/
def idxList {α : Type} : ℕ → List α → List (ℕ × α)
  | _, [] => []
  | n, a :: as => (n, a) :: idxList (n + 1) as

/-- `Math.max(...ds)` over a nonempty list with head `d` and tail `l`. -/
def maxQ (d : ℚ) (l : List ℚ) : ℚ := l.foldl max d

/-! ## ButtonSystem (button press state machine) -/

/-- The four button states of the `Button` component. -/
inductive ButtonState
  | resting
  | pressed
  | fully_pressed
  | recovering
deriving DecidableEq, Repr

/-- Per-button configuration: `restingY`, `recoverySpeed`,
`fullPressDistance` from the `Button` component, and whether a callback is
registered in the `buttonActions` side table. -/
structure BParams where
  restingY : ℚ
  recoverySpeed : ℚ
  fullPressDistance : ℚ
  hasAction : Bool

/-- Mutable per-button state: current and previous state strings, the mesh's
vertical position, and the `actionTriggered` flag. -/
structure Button where
  curr : ButtonState
  prev : ButtonState
  posY : ℚ
  actionTriggered : Bool
deriving DecidableEq, Repr

/-- A freshly registered button: resting at its captured resting height. -/
def initButton (p : BParams) : Button :=
  { curr := ButtonState.resting, prev := ButtonState.resting,
    posY := p.restingY, actionTriggered := false }

/-- One hand's observation against one button on one frame: either the
index-fingertip joint could not be resolved, or it resolved to a point that
is inside/outside the tolerance-expanded bounding box with the given
pressing distance `surfaceY - localY`. -/
inductive HandObs
  | noJoint
  | joint (inside : Bool) (pressingDistance : ℚ)
deriving DecidableEq, Repr

/-- The contribution of one hand to `pressingDistances`: the hand counts
only when the fingertip resolved, lies inside the expanded box and its
pressing distance exceeds the `-0.0016` tolerance; the recorded depth is
clamped to `≥ 0` by `Math.max(0, pressingDistance)`. -/
def pressOf : HandObs → Option ℚ
  | HandObs.noJoint => none
  | HandObs.joint inside pd =>
      if inside = true ∧ -(16 / 10000 : ℚ) < pd then some (max 0 pd) else none

/-- The `pressingDistances` array collected over all hands. -/
def pressList (obs : List HandObs) : List ℚ := obs.filterMap pressOf

/-- The state/position transition of one processed frame, from the
collected `pressingDistances`: recovery toward `restingY` when empty,
otherwise press displacement clamped at the full-press floor. -/
def buttonNext (p : BParams) (ds : List ℚ) (delta : ℚ) (b : Button) :
    ButtonState × ℚ :=
  match ds with
  | [] =>
      if b.posY < p.restingY then
        (ButtonState.recovering, b.posY + p.recoverySpeed * delta)
      else
        (ButtonState.resting, p.restingY)
  | d :: rest =>
      let m := maxQ d rest
      let y1 := if 0 < m then
          max (p.restingY - m) (p.restingY - p.fullPressDistance)
        else b.posY
      if y1 ≤ p.restingY - p.fullPressDistance then
        (ButtonState.fully_pressed, p.restingY - p.fullPressDistance)
      else
        (ButtonState.pressed, y1)

/-- One frame of `ButtonSystem.update` for one button.  An empty `obs`
models every early return (no input manager, no session, no hand adapters,
or zero hands): the button is left untouched.  Returns the new button state
and whether the registered action fired this frame. -/
def buttonStep (p : BParams) (obs : List HandObs) (delta : ℚ) (b : Button) :
    Button × Bool :=
  if obs = [] then (b, false) else
  let prev := b.curr
  let next := buttonNext p (pressList obs) delta b
  let curr := next.1
  let fired : Bool :=
    if curr = ButtonState.fully_pressed ∧ prev ≠ ButtonState.fully_pressed ∧
        p.hasAction = true ∧ b.actionTriggered = false then true else false
  let trig : Bool :=
    if curr = ButtonState.fully_pressed ∧ prev ≠ ButtonState.fully_pressed then
      (if p.hasAction = true ∧ b.actionTriggered = false then true
       else b.actionTriggered)
    else if curr = ButtonState.fully_pressed then b.actionTriggered
    else false
  ({ curr := curr, prev := prev, posY := next.2, actionTriggered := trig }, fired)

/-- Run `buttonStep` over a list of frames, counting action firings. -/
def buttonRun (p : BParams) : List (List HandObs × ℚ) → Button → Button × ℕ
  | [], b => (b, 0)
  | f :: fs, b =>
      let r := buttonStep p f.1 f.2 b
      let rest := buttonRun p fs r.1
      (rest.1, (if r.2 = true then 1 else 0) + rest.2)

/-- A frame on which the press is held at full depth: some hand contributes,
and the maximal pressing distance reaches `fullPressDistance`. -/
def FullPressFrame (p : BParams) (obs : List HandObs) : Prop :=
  ∃ d rest, pressList obs = d :: rest ∧ p.fullPressDistance ≤ maxQ d rest

/-- The amended per-frame bounds on the button offset: the press floor below,
and `restingY` plus one maximal recovery increment above. -/
def InBounds (p : BParams) (dmax : ℚ) (b : Button) : Prop :=
  p.restingY - p.fullPressDistance ≤ b.posY ∧
    b.posY ≤ p.restingY + p.recoverySpeed * dmax

/-- Iterate the same release frame (`obs`, `delta`) `n` times. -/
def releaseIter (p : BParams) (obs : List HandObs) (delta : ℚ) :
    ℕ → Button → Button
  | 0, b => b
  | n + 1, b => releaseIter p obs delta n (buttonStep p obs delta b).1

/-- `NESSystem.getButtonState`: a button reports "down" to the emulation
core exactly when its current state is `pressed` or `fully_pressed`. -/
def getButtonState (b : Button) : Bool :=
  match b.curr with
  | ButtonState.pressed => true
  | ButtonState.fully_pressed => true
  | _ => false

/-! ## StickGrabSystem (grab arbitration) -/

/-- Per-frame data for one tracked hand: its handedness id, the resolved
`gripSpace` world position (none when unavailable), and the gamepad primary
button (none when no matching input source or gamepad exists). -/
structure HandInput where
  side : ℕ
  pos : Option (ℚ × ℚ × ℚ)
  pressed : Option Bool
deriving DecidableEq, Repr

/-- Per-stick grab state (`StickGrab` component plus the `attachedHands`
entry, recorded as the owning hand's side) and the stick's world position. -/
structure StickState where
  attached : Bool
  justAttached : Bool
  justDetached : Bool
  owner : Option ℕ
  pos : ℚ × ℚ × ℚ
deriving DecidableEq, Repr

/-- Grab-system state across frames: the `previousButtonStates` map, the
selection-edge flags stored on each hand adapter object, and the sticks. -/
structure GrabState where
  prevBtn : ℕ → Bool
  flags : ℕ → Bool × Bool
  sticks : List StickState

/-- Squared Euclidean distance.  `Math.sqrt` is strictly monotone, so every
distance comparison of the grab system is modelled on squared values. -/
def distSq (a b : ℚ × ℚ × ℚ) : ℚ :=
  (a.1 - b.1) ^ 2 + (a.2.1 - b.2.1) ^ 2 + (a.2.2 - b.2.2) ^ 2

/-- The `availableSticks` candidates for one hand: every not-attached stick
with its index and squared distance to the hand position. -/
def candidates (sticks : List StickState) (hp : ℚ × ℚ × ℚ) : List (ℕ × ℚ) :=
  (idxList 0 sticks).filterMap
    (fun is => if is.2.attached = false then some (is.1, distSq is.2.pos hp) else none)

/-- Sorting the candidates ascending with a stable sort and taking the first
element yields the first-listed candidate of minimal distance. -/
def pickNearest : List (ℕ × ℚ) → Option (ℕ × ℚ)
  | [] => none
  | c :: cs => some (cs.foldl (fun best x => if x.2 < best.2 then x else best) c)

/-- The accumulator of the first `hands.forEach` pass: evolving
`previousButtonStates`, per-hand edge flags, and the per-frame `attachMap`
from stick index to the side of the hand written last. -/
structure Phase1Acc where
  prevBtn : ℕ → Bool
  flags : ℕ → Bool × Bool
  attach : ℕ → Option ℕ

/-- First-pass processing of one hand: skip if the grip position is missing;
otherwise derive the trigger edges (updating `previousButtonStates` only
when a gamepad is present), write the stick's `attachMap` entry when the
nearest available stick is within the squared capture radius and the
trigger is newly or still active, and store the edge flags on the hand. -/
def phase1Hand (sticks : List StickState) (acc : Phase1Acc) (h : HandInput) :
    Phase1Acc :=
  match h.pos with
  | none => acc
  | some hp =>
    match h.pressed with
    | none =>
        { prevBtn := acc.prevBtn,
          flags := Function.update acc.flags h.side (false, false),
          attach := acc.attach }
    | some pb =>
        let pr := acc.prevBtn h.side
        let justStarted := pb && !pr
        let justStopped := !pb && pr
        let attach1 :=
          match pickNearest (candidates sticks hp) with
          | some c =>
              if (justStarted || pb) = true ∧ c.2 < 1 / 100 then
                Function.update acc.attach c.1 (some h.side)
              else acc.attach
          | none => acc.attach
        { prevBtn := Function.update acc.prevBtn h.side pb,
          flags := Function.update acc.flags h.side (justStarted, justStopped),
          attach := attach1 }

/-- `stillSelecting` for a given handedness: the gamepad primary button of
the matching input source, defaulting to false when absent. -/
def pressedOf (hands : List HandInput) (side : ℕ) : Bool :=
  match hands.find? (fun h => h.side == side) with
  | some h => h.pressed.getD false
  | none => false

/-- Second-pass processing of one stick: clear both edge pulses, then either
attach (unattached stick whose `attachMap` hand has a rising edge) or
detach (attached stick whose owner released or stopped selecting). -/
def phase2Stick (hands : List HandInput) (flags : ℕ → Bool × Bool)
    (attach : ℕ → Option ℕ) (i : ℕ) (s : StickState) : StickState :=
  let s0 := { s with justAttached := false, justDetached := false }
  if s0.attached = false then
    match attach i with
    | some side =>
        if (flags side).1 = true then
          { s0 with attached := true, justAttached := true, owner := some side }
        else s0
    | none => s0
  else
    match s0.owner with
    | some side =>
        if pressedOf hands side = false ∨ (flags side).2 = true then
          { s0 with attached := false, justDetached := true, owner := none }
        else s0
    | none => s0

/-- One frame of `StickGrabSystem.update`.  `none` models every early
return (no input manager, no hand adapters, no XR session): all state,
including stale edge pulses, is left untouched. -/
def grabFrame (inp : Option (List HandInput)) (g : GrabState) : GrabState :=
  match inp with
  | none => g
  | some hands =>
      let acc := hands.foldl (phase1Hand g.sticks)
        { prevBtn := g.prevBtn, flags := g.flags, attach := fun _ => none }
      { prevBtn := acc.prevBtn, flags := acc.flags,
        sticks := (idxList 0 g.sticks).map
          (fun is => phase2Stick hands acc.flags acc.attach is.1 is.2) }

/-- Whether one hand writes stick `k` into the `attachMap` this frame: its
grip position resolved, its gamepad trigger is active (edge or held), and
stick `k` is its first-listed nearest available stick within the squared
capture radius.  `p0` is the `previousButtonStates` table at frame start. -/
def selectsStick (sticks : List StickState) (p0 : ℕ → Bool) (k : ℕ)
    (h : HandInput) : Bool :=
  match h.pos with
  | none => false
  | some hp =>
    match h.pressed with
    | none => false
    | some pb =>
        ((pb && !(p0 h.side)) || pb) &&
          (match pickNearest (candidates sticks hp) with
           | some c => decide (c.1 = k) && decide (c.2 < 1 / 100)
           | none => false)

/-- The hand owning stick `k`'s final `attachMap` entry: the last hand in
processing order that selects stick `k`. -/
def claimantF (sticks : List StickState) (p0 : ℕ → Bool) (k : ℕ)
    (hands : List HandInput) : Option HandInput :=
  hands.foldl (fun a h => if selectsStick sticks p0 k h = true then some h else a) none

/-! ## AnalogStickSystem (axis mapping and spring return) -/

/-- Per-stick state of the analog axis system: horizontal offset of the
stick mesh from its recorded initial (rest) world position, the stored
grab-reference hand position, whether `grabbedHands` holds an entry, and
the published `AnalogStick` component fields. -/
structure AxisState where
  offX : ℚ
  offZ : ℚ
  grabRef : Option (ℚ × ℚ × ℚ)
  tracked : Bool
  stickX : ℚ
  stickY : ℚ
  stickAngle : ℚ
  stickMagnitude : ℚ
  isActive : Bool
deriving DecidableEq, Repr

/-- `AnalogStick` component configuration. -/
structure AxisParams where
  maxRadius : ℚ
  returnSpeed : ℚ

/-- Per-frame input to the axis update of one stick: the `StickGrab`
component flags after this frame's grab arbitration, whether
`attachedHands` has an owner entry, the owning hand's resolved world
position (none when gripSpace, index fingertip and raySpace all fail),
and the frame delta. -/
structure AxisInput where
  attached : Bool
  justAttached : Bool
  ownerPresent : Bool
  handPos : Option (ℚ × ℚ × ℚ)
  delta : ℚ

/-- One frame of `AnalogStickSystem.update` for one stick, parametrized by
the square-root and atan2 models. -/
def analogStep (sqrtFn : ℚ → ℚ) (at2 : ℚ → ℚ → ℚ) (p : AxisParams)
    (inp : AxisInput) (s : AxisState) : AxisState :=
  let s1 :=
    if inp.attached = true then
      (if inp.ownerPresent = true then { s with tracked := true } else s)
    else
      (if s.tracked = true then { s with tracked := false, grabRef := none } else s)
  if inp.attached = true ∧ inp.ownerPresent = true then
    match inp.handPos with
    | none => s1
    | some hp =>
      let s2 := if inp.justAttached = true then { s1 with grabRef := some hp } else s1
      match s2.grabRef with
      | none => { s2 with grabRef := some hp }
      | some gr =>
          let dx := hp.1 - gr.1
          let dz := hp.2.2 - gr.2.2
          let hd := sqrtFn (dx ^ 2 + dz ^ 2)
          let moveX := if p.maxRadius < hd then dx * (p.maxRadius / hd) else dx
          let moveZ := if p.maxRadius < hd then dz * (p.maxRadius / hd) else dz
          let mag := min (hd / p.maxRadius) 1
          let tilt := if (1 : ℚ) / 1000 < hd then at2 dz dx else 0
          let sx := if 0 < mag then moveX / p.maxRadius else 0
          let sy := if 0 < mag then moveZ / p.maxRadius else 0
          { s2 with offX := moveX, offZ := moveZ,
                    stickX := max (-1) (min 1 sx),
                    stickY := max (-1) (min 1 sy),
                    stickAngle := tilt, stickMagnitude := mag, isActive := true }
  else
    let dist := sqrtFn (s1.offX ^ 2 + s1.offZ ^ 2)
    if (1 : ℚ) / 1000 < dist then
      let t := p.returnSpeed * inp.delta
      let mag := min (dist / p.maxRadius) 1
      let ang := if (1 : ℚ) / 1000 < dist then at2 s1.offZ s1.offX else 0
      { s1 with offX := s1.offX * (1 - t), offZ := s1.offZ * (1 - t),
                stickX := if 0 < mag then s1.offX / p.maxRadius else 0,
                stickY := if 0 < mag then s1.offZ / p.maxRadius else 0,
                stickAngle := ang, stickMagnitude := mag,
                isActive := decide ((1 : ℚ) / 100 < mag) }
    else
      { s1 with offX := 0, offZ := 0, stickX := 0, stickY := 0, stickAngle := 0,
                stickMagnitude := 0, isActive := false }

/-- The planar displacement whose square root feeds the attached-branch
axis computation this frame, when that branch publishes. -/
def attachedDelta (inp : AxisInput) (s : AxisState) : Option (ℚ × ℚ) :=
  if inp.attached = true ∧ inp.ownerPresent = true then
    match inp.handPos with
    | none => none
    | some hp =>
      match (if inp.justAttached = true then some hp else s.grabRef) with
      | none => none
      | some gr => some (hp.1 - gr.1, hp.2.2 - gr.2.2)
  else none

/-- The planar displacement from which this frame's published axis values
are recomputed, if any: the hand displacement on an attached publishing
frame, or the residual stick offset on a detached interpolation frame. -/
def stepDelta (sqrtFn : ℚ → ℚ) (inp : AxisInput) (s : AxisState) :
    Option (ℚ × ℚ) :=
  if inp.attached = true ∧ inp.ownerPresent = true then attachedDelta inp s
  else if (1 : ℚ) / 1000 < sqrtFn (s.offX ^ 2 + s.offZ ^ 2) then
    some (s.offX, s.offZ)
  else none

/-- The amended axis invariant: the stick's horizontal offset never exceeds
`maxRadius` and the published axis values stay within `[-1, 1]`. -/
def AxisInv (p : AxisParams) (s : AxisState) : Prop :=
  s.offX ^ 2 + s.offZ ^ 2 ≤ p.maxRadius ^ 2 ∧
    -1 ≤ s.stickX ∧ s.stickX ≤ 1 ∧ -1 ≤ s.stickY ∧ s.stickY ≤ 1

/-- Iterated detached frames with a fixed delta (spring return with no
further input after a detach). -/
def springTrace (sqrtFn : ℚ → ℚ) (at2 : ℚ → ℚ → ℚ) (p : AxisParams)
    (delta : ℚ) (s0 : AxisState) : ℕ → AxisState
  | 0 => s0
  | n + 1 => analogStep sqrtFn at2 p
      { attached := false, justAttached := false, ownerPresent := false,
        handPos := none, delta := delta } (springTrace sqrtFn at2 p delta s0 n)

/-- The scalar coefficient sequence of the spring return along a fixed ray:
`cseq` tracks how the initial offset is scaled frame by frame, with the
threshold test applied to the exact distance `|c| * d0`. -/
def cseq (t d0 : ℚ) : ℕ → ℚ
  | 0 => 1
  | n + 1 => if (1 : ℚ) / 1000 < |cseq t d0 n| * d0 then cseq t d0 n * (1 - t) else 0

/-! ## Concrete instances used in counterexamples and witnesses -/

/-- The concrete grab state used in witnesses and counterexamples: a single
unattached stick at the origin, no prior trigger state, no stale flags. -/
def g0cex : GrabState :=
  { prevBtn := fun _ => false, flags := fun _ => (false, false),
    sticks := [{ attached := false, justAttached := false, justDetached := false,
                 owner := none, pos := (0, 0, 0) }] }

/-- The stick record of `g0cex`. -/
def s0cex : StickState :=
  { attached := false, justAttached := false, justDetached := false,
    owner := none, pos := (0, 0, 0) }

/-- A grab state for the blocked-edge counterexample: hand side 0 was
already pressing on the previous frame, and a single unattached stick sits
at the origin. -/
def g5cex : GrabState :=
  { prevBtn := fun s => decide (s = 0), flags := fun _ => (false, false),
    sticks := [{ attached := false, justAttached := false, justDetached := false,
                 owner := none, pos := (0, 0, 0) }] }

/-- The two hands of the blocked-edge counterexample: hand side 1 (rising
edge, nearer) is processed first; hand side 0 (held trigger, no edge) is
processed second and overwrites the attach-map entry. -/
def handsB : List HandInput :=
  [{ side := 1, pos := some ((2 : ℚ) / 100, 0, 0), pressed := some true },
   { side := 0, pos := some ((3 : ℚ) / 100, 0, 0), pressed := some true }]

/-- The two hands of the nearest-does-not-win counterexample: hand side 0
is at distance 0.02 from the stick, hand side 1 at distance 0.09; both
raise a rising edge on this frame. -/
def handsC : List HandInput :=
  [{ side := 0, pos := some ((1 : ℚ) / 50, 0, 0), pressed := some true },
   { side := 1, pos := some ((9 : ℚ) / 100, 0, 0), pressed := some true }]

/-- The zero function standing in for `Math.atan2` in concrete runs; no
claim depends on the angle value. -/
def zAt2 : ℚ → ℚ → ℚ := fun _ _ => 0

/-- Concrete analog-stick parameters: `maxRadius = 0.05`,
`returnSpeed = 5`. -/
def pAx : AxisParams := { maxRadius := 1 / 20, returnSpeed := 5 }

/-- The initial analog state of a freshly registered stick. -/
def s0Ax : AxisState :=
  { offX := 0, offZ := 0, grabRef := none, tracked := false, stickX := 0,
    stickY := 0, stickAngle := 0, stickMagnitude := 0, isActive := false }

/-- Frame-1 input of the unclamped-axis trace: attach at the origin. -/
def i1cex : AxisInput :=
  { attached := true, justAttached := true, ownerPresent := true,
    handPos := some (0, 0, 0), delta := 1 / 60 }

/-- Frame-2 input: hand moved 0.10 m along x, beyond `maxRadius`. -/
def i2cex : AxisInput :=
  { attached := true, justAttached := false, ownerPresent := true,
    handPos := some (1 / 10, 0, 0), delta := 1 / 60 }

/-- Frame-3 input: detached, with a long 0.5 s frame. -/
def i3cex : AxisInput :=
  { attached := false, justAttached := false, ownerPresent := false,
    handPos := none, delta := 1 / 2 }

/-- Frame-4 input: detached, ordinary frame. -/
def i4cex : AxisInput :=
  { attached := false, justAttached := false, ownerPresent := false,
    handPos := none, delta := 1 / 60 }

/-- State after frame 1: grab reference stored at the origin. -/
def sAx1 : AxisState :=
  { offX := 0, offZ := 0, grabRef := some (0, 0, 0), tracked := true,
    stickX := 0, stickY := 0, stickAngle := 0, stickMagnitude := 0,
    isActive := true }

/-- State after frame 2: offset clamped at `maxRadius`, full deflection. -/
def sAx2 : AxisState :=
  { offX := 1 / 20, offZ := 0, grabRef := some (0, 0, 0), tracked := true,
    stickX := 1, stickY := 0, stickAngle := 0, stickMagnitude := 1,
    isActive := true }

/-- State after frame 3: the unclamped lerp alpha 5/2 overshoots the
center, leaving the offset at -3/40 — outside the return segment. -/
def sAx3 : AxisState :=
  { offX := -3 / 40, offZ := 0, grabRef := none, tracked := false,
    stickX := 1, stickY := 0, stickAngle := 0, stickMagnitude := 1,
    isActive := true }

/-- Attached publishing input for the bounds witness: a 3-4-5 hand
displacement of total length exactly `maxRadius`. -/
def iW : AxisInput :=
  { attached := true, justAttached := false, ownerPresent := true,
    handPos := some (3 / 100, 0, 1 / 25), delta := 1 / 60 }

/-- The input frame seen by a detached stick with no hands interacting. -/
def detInput (delta : ℚ) : AxisInput :=
  { attached := false, justAttached := false, ownerPresent := false,
    handPos := none, delta := delta }

/-! ## Helper lemmas -/

theorem ratSqrt_nonneg (q : ℚ) : 0 ≤ ratSqrt q := by
  unfold ratSqrt
  split
  · exact le_refl 0
  · positivity

theorem ratSqrt_sq (q : ℚ) : ratSqrt (q * q) = |q| := by
  rcases eq_or_ne q 0 with rfl | h
  · simp [ratSqrt]
  · have hpos : 0 < q * q := mul_self_pos.mpr h
    have hden : (0 : ℚ) < (q.den : ℚ) := by exact_mod_cast q.pos
    unfold ratSqrt
    rw [if_neg (not_le.mpr hpos), Rat.mul_self_num, Rat.mul_self_den]
    have h1 : (q.num * q.num).toNat * (q.den * q.den)
        = (q.num.natAbs * q.den) * (q.num.natAbs * q.den) := by
      have h2 : (q.num * q.num).toNat = q.num.natAbs * q.num.natAbs := by
        rw [← Int.natAbs_mul_self]
        exact Int.toNat_natCast _
      rw [h2]; ring
    rw [h1, Nat.sqrt_eq]
    push_cast [Int.cast_natAbs]
    rw [mul_div_mul_right _ _ (ne_of_gt hden)]
    rw [eq_comm]
    nth_rewrite 1 [← Rat.num_div_den q]
    rw [abs_div, abs_of_pos hden]

theorem ratSqrt_pow (q : ℚ) : ratSqrt (q ^ 2) = |q| := by
  rw [sq, ratSqrt_sq]

/-! ## ButtonSystem lemmas -/

theorem buttonStep_nil (p : BParams) (delta : ℚ) (b : Button) :
    buttonStep p [] delta b = (b, false) := by
  simp [buttonStep]

theorem buttonStep_eq {p : BParams} {obs : List HandObs} {delta : ℚ} {b : Button}
    (h : obs ≠ []) :
    buttonStep p obs delta b =
      ({ curr := (buttonNext p (pressList obs) delta b).1, prev := b.curr,
         posY := (buttonNext p (pressList obs) delta b).2,
         actionTriggered :=
           if (buttonNext p (pressList obs) delta b).1 = ButtonState.fully_pressed ∧
               b.curr ≠ ButtonState.fully_pressed then
             (if p.hasAction = true ∧ b.actionTriggered = false then true
              else b.actionTriggered)
           else if (buttonNext p (pressList obs) delta b).1 = ButtonState.fully_pressed then
             b.actionTriggered
           else false },
       if (buttonNext p (pressList obs) delta b).1 = ButtonState.fully_pressed ∧
           b.curr ≠ ButtonState.fully_pressed ∧ p.hasAction = true ∧
           b.actionTriggered = false then true else false) := by
  unfold buttonStep
  rw [if_neg h]

theorem buttonNext_nil (p : BParams) (delta : ℚ) (b : Button) :
    buttonNext p [] delta b =
      if b.posY < p.restingY then
        (ButtonState.recovering, b.posY + p.recoverySpeed * delta)
      else (ButtonState.resting, p.restingY) := rfl

theorem buttonNext_full {p : BParams} {d : ℚ} {rest : List ℚ} (delta : ℚ)
    (b : Button) (hm : p.fullPressDistance ≤ maxQ d rest)
    (hfpd : 0 < p.fullPressDistance) :
    buttonNext p (d :: rest) delta b =
      (ButtonState.fully_pressed, p.restingY - p.fullPressDistance) := by
  have hm0 : 0 < maxQ d rest := lt_of_lt_of_le hfpd hm
  have hmax : max (p.restingY - maxQ d rest) (p.restingY - p.fullPressDistance)
      = p.restingY - p.fullPressDistance := max_eq_right (by linarith)
  simp only [buttonNext]
  rw [if_pos hm0, hmax, if_pos (le_refl _)]

theorem pressList_obs_ne_nil {obs : List HandObs} {d : ℚ} {rest : List ℚ}
    (h : pressList obs = d :: rest) : obs ≠ [] := by
  intro he
  rw [he] at h
  simp [pressList] at h

/-! ## Claim C9 -/

/-- C9: a fingertip inside the tolerance-expanded box whose pressing
distance lies in the band `(-0.0016, 0]` is counted with recorded intrusion
depth `0`, sets the button state to `pressed` without displacing the mesh,
and `getButtonState` already reports the button as held down. -/
theorem touch_zero_depth_reports_down (p : BParams) (delta : ℚ) (b : Button)
    (pd : ℚ) (hlo : -(16 / 10000 : ℚ) < pd) (hhi : pd ≤ 0)
    (hpos : p.restingY - p.fullPressDistance < b.posY) :
    pressList [HandObs.joint true pd] = [0] ∧
    (buttonStep p [HandObs.joint true pd] delta b).1.curr = ButtonState.pressed ∧
    (buttonStep p [HandObs.joint true pd] delta b).1.posY = b.posY ∧
    getButtonState (buttonStep p [HandObs.joint true pd] delta b).1 = true := by
  have hpl : pressList [HandObs.joint true pd] = [0] := by
    simp [pressList, pressOf, hlo, max_eq_left hhi]
  have hne : ([HandObs.joint true pd] : List HandObs) ≠ [] := by simp
  have hnext : buttonNext p [0] delta b = (ButtonState.pressed, b.posY) := by
    simp only [buttonNext, maxQ, List.foldl]
    rw [if_neg (lt_irrefl 0), if_neg (not_le.mpr hpos)]
  refine ⟨hpl, ?_, ?_, ?_⟩ <;>
    rw [buttonStep_eq hne, hpl, hnext] <;>
    simp [getButtonState]

/-- Witness for C9 at a concrete input. -/
theorem touch_zero_depth_reports_down_witness :
    pressList [HandObs.joint true (-(1 / 1000))] = [0] ∧
    (buttonStep ⟨0, 2 / 5, 1 / 50, false⟩ [HandObs.joint true (-(1 / 1000))] (1 / 60)
        (initButton ⟨0, 2 / 5, 1 / 50, false⟩)).1.curr = ButtonState.pressed ∧
    (buttonStep ⟨0, 2 / 5, 1 / 50, false⟩ [HandObs.joint true (-(1 / 1000))] (1 / 60)
        (initButton ⟨0, 2 / 5, 1 / 50, false⟩)).1.posY
      = (initButton ⟨0, 2 / 5, 1 / 50, false⟩).posY ∧
    getButtonState (buttonStep ⟨0, 2 / 5, 1 / 50, false⟩
        [HandObs.joint true (-(1 / 1000))] (1 / 60)
        (initButton ⟨0, 2 / 5, 1 / 50, false⟩)).1 = true :=
  touch_zero_depth_reports_down ⟨0, 2 / 5, 1 / 50, false⟩ (1 / 60)
    (initButton ⟨0, 2 / 5, 1 / 50, false⟩) (-(1 / 1000))
    (by norm_num) (by norm_num) (by norm_num [initButton])

/-! ## Claim C2 -/

/-- C2 counterexample: with `restingY = 0`, `recoverySpeed = 0.4`,
`fullPressDistance = 0.02`, a full press followed by one release frame with
`delta = 0.1` recovers from `-0.02` to `0.02`, strictly above `restingY`:
the recovery step is not clamped at `restingY`, so the claimed upper bound
fails at the end of that frame. -/
theorem button_offset_overshoot_cex :
    (buttonStep ⟨0, 2 / 5, 1 / 50, false⟩ [HandObs.joint false 0] (1 / 10)
        (buttonStep ⟨0, 2 / 5, 1 / 50, false⟩ [HandObs.joint true (1 / 20)] (1 / 10)
          (initButton ⟨0, 2 / 5, 1 / 50, false⟩)).1).1.posY = 1 / 50 ∧
    (⟨0, 2 / 5, 1 / 50, false⟩ : BParams).restingY
      < (buttonStep ⟨0, 2 / 5, 1 / 50, false⟩ [HandObs.joint false 0] (1 / 10)
          (buttonStep ⟨0, 2 / 5, 1 / 50, false⟩ [HandObs.joint true (1 / 20)] (1 / 10)
            (initButton ⟨0, 2 / 5, 1 / 50, false⟩)).1).1.posY := by
  have hpo : pressOf (HandObs.joint true (1 / 20)) = some (1 / 20) := by
    simp only [pressOf]
    rw [if_pos ⟨trivial, by norm_num⟩]
    rw [max_eq_right (by norm_num : (0 : ℚ) ≤ 1 / 20)]
  have hpl1 : pressList [HandObs.joint true (1 / 20)] = [1 / 20] := by
    unfold pressList
    rw [List.filterMap_cons, hpo]
    simp
  have hne1 : ([HandObs.joint true (1 / 20)] : List HandObs) ≠ [] := by simp
  have hnext1 : buttonNext ⟨0, 2 / 5, 1 / 50, false⟩ [1 / 20] (1 / 10)
      (initButton ⟨0, 2 / 5, 1 / 50, false⟩) = (ButtonState.fully_pressed, -(1 / 50)) := by
    rw [buttonNext_full (1 / 10) _ (by norm_num [maxQ]) (by norm_num)]
    norm_num
  have h1 : (buttonStep ⟨0, 2 / 5, 1 / 50, false⟩ [HandObs.joint true (1 / 20)] (1 / 10)
      (initButton ⟨0, 2 / 5, 1 / 50, false⟩)).1
      = { curr := ButtonState.fully_pressed, prev := ButtonState.resting,
          posY := -(1 / 50), actionTriggered := false } := by
    rw [buttonStep_eq hne1, hpl1, hnext1]
    simp [initButton]
  have hpo2 : pressOf (HandObs.joint false 0) = none := by
    simp [pressOf]
  have hpl2 : pressList [HandObs.joint false 0] = [] := by
    simp [pressList, hpo2]
  have hne2 : ([HandObs.joint false 0] : List HandObs) ≠ [] := by simp
  rw [h1, buttonStep_eq hne2, hpl2]
  norm_num [buttonNext]

theorem buttonStep_inBounds {p : BParams} {dmax : ℚ} (obs : List HandObs)
    {delta : ℚ} {b : Button} (hfpd : 0 ≤ p.fullPressDistance)
    (hrs : 0 ≤ p.recoverySpeed) (hd0 : 0 ≤ delta) (hdm : delta ≤ dmax)
    (hb : InBounds p dmax b) : InBounds p dmax (buttonStep p obs delta b).1 := by
  have hdmax0 : 0 ≤ dmax := le_trans hd0 hdm
  have hrsd : 0 ≤ p.recoverySpeed * dmax := mul_nonneg hrs hdmax0
  rcases eq_or_ne obs [] with rfl | hne
  · rw [buttonStep_nil]; exact hb
  · rw [buttonStep_eq hne]
    obtain ⟨hb1, hb2⟩ := hb
    have key : p.restingY - p.fullPressDistance ≤ (buttonNext p (pressList obs) delta b).2 ∧
        (buttonNext p (pressList obs) delta b).2 ≤ p.restingY + p.recoverySpeed * dmax := by
      rcases hds : pressList obs with _ | ⟨d, rest⟩
      · rw [buttonNext_nil]
        by_cases hy : b.posY < p.restingY
        · simp only [if_pos hy]
          have h3 : 0 ≤ p.recoverySpeed * delta := mul_nonneg hrs hd0
          have h4 : p.recoverySpeed * delta ≤ p.recoverySpeed * dmax :=
            mul_le_mul_of_nonneg_left hdm hrs
          exact ⟨by linarith, by linarith⟩
        · simp only [if_neg hy]
          exact ⟨by linarith, by linarith⟩
      · simp only [buttonNext]
        by_cases hm : 0 < maxQ d rest
        · simp only [if_pos hm]
          by_cases hy1 : max (p.restingY - maxQ d rest)
              (p.restingY - p.fullPressDistance) ≤ p.restingY - p.fullPressDistance
          · simp only [if_pos hy1]
            exact ⟨by linarith, by linarith⟩
          · simp only [if_neg hy1]
            have h2 : max (p.restingY - maxQ d rest)
                (p.restingY - p.fullPressDistance) ≤ p.restingY :=
              max_le (by linarith) (by linarith)
            exact ⟨le_max_right _ _, by linarith⟩
        · simp only [if_neg hm]
          by_cases hy1 : b.posY ≤ p.restingY - p.fullPressDistance
          · simp only [if_pos hy1]
            exact ⟨by linarith, by linarith⟩
          · simp only [if_neg hy1]
            exact ⟨by linarith, by linarith⟩
    exact ⟨key.1, key.2⟩

/-- C2 amended: the press floor `restingY - fullPressDistance` is a true
lower bound on the button offset, but recovery is not clamped at
`restingY`: it can overshoot by up to one recovery increment
`recoverySpeed * delta` before the next frame snaps it back, so the offset
stays within `[restingY - fullPressDistance, restingY + recoverySpeed * dmax]`
for any bound `dmax` on the frame deltas. -/
theorem button_offset_bounds_amended (p : BParams) (dmax : ℚ)
    (frames : List (List HandObs × ℚ)) (b : Button)
    (hfpd : 0 ≤ p.fullPressDistance) (hrs : 0 ≤ p.recoverySpeed)
    (hdel : ∀ f ∈ frames, 0 ≤ f.2 ∧ f.2 ≤ dmax)
    (hb : InBounds p dmax b) : InBounds p dmax (buttonRun p frames b).1 := by
  induction frames generalizing b with
  | nil => exact hb
  | cons f fs ih =>
      simp only [buttonRun]
      apply ih
      · exact fun f2 hf2 => hdel f2 (List.mem_cons_of_mem f hf2)
      · exact buttonStep_inBounds f.1 hfpd hrs
          (hdel f (List.mem_cons_self f fs)).1 (hdel f (List.mem_cons_self f fs)).2 hb

/-- Witness for the amended C2 at a concrete run. -/
theorem button_offset_bounds_amended_witness :
    InBounds ⟨0, 2 / 5, 1 / 50, true⟩ (1 / 10)
      (buttonRun ⟨0, 2 / 5, 1 / 50, true⟩
        [([HandObs.joint true (1 / 20)], 1 / 10), ([HandObs.joint false 0], 1 / 10)]
        (initButton ⟨0, 2 / 5, 1 / 50, true⟩)).1 :=
  button_offset_bounds_amended ⟨0, 2 / 5, 1 / 50, true⟩ (1 / 10) _ _
    (by norm_num) (by norm_num)
    (by
      intro f hf
      simp only [List.mem_cons, List.not_mem_nil, or_false] at hf
      rcases hf with rfl | rfl
      · norm_num
      · norm_num)
    (by constructor <;> norm_num [initButton])

/-! ## Claim C6 -/

/-- C6 counterexample: when no hands are present the update returns early,
so a fully depressed button is left frozen in place — its state is not set
to `recovering` and its offset does not move toward resting. -/
theorem button_frozen_without_hands_cex :
    buttonStep ⟨0, 2 / 5, 1 / 50, false⟩ [] (1 / 10)
        (buttonStep ⟨0, 2 / 5, 1 / 50, false⟩ [HandObs.joint true (1 / 20)] (1 / 10)
          (initButton ⟨0, 2 / 5, 1 / 50, false⟩)).1
      = ((buttonStep ⟨0, 2 / 5, 1 / 50, false⟩ [HandObs.joint true (1 / 20)] (1 / 10)
          (initButton ⟨0, 2 / 5, 1 / 50, false⟩)).1, false) ∧
    (buttonStep ⟨0, 2 / 5, 1 / 50, false⟩ [HandObs.joint true (1 / 20)] (1 / 10)
        (initButton ⟨0, 2 / 5, 1 / 50, false⟩)).1.posY
      < (⟨0, 2 / 5, 1 / 50, false⟩ : BParams).restingY ∧
    (buttonStep ⟨0, 2 / 5, 1 / 50, false⟩ [HandObs.joint true (1 / 20)] (1 / 10)
        (initButton ⟨0, 2 / 5, 1 / 50, false⟩)).1.curr ≠ ButtonState.recovering ∧
    (buttonStep ⟨0, 2 / 5, 1 / 50, false⟩ [HandObs.joint true (1 / 20)] (1 / 10)
        (initButton ⟨0, 2 / 5, 1 / 50, false⟩)).1.curr = ButtonState.fully_pressed := by
  have hpo : pressOf (HandObs.joint true (1 / 20)) = some (1 / 20) := by
    simp only [pressOf]
    rw [if_pos ⟨trivial, by norm_num⟩]
    rw [max_eq_right (by norm_num : (0 : ℚ) ≤ 1 / 20)]
  have hpl1 : pressList [HandObs.joint true (1 / 20)] = [1 / 20] := by
    unfold pressList
    rw [List.filterMap_cons, hpo]
    simp
  have hne1 : ([HandObs.joint true (1 / 20)] : List HandObs) ≠ [] := by simp
  have hnext1 : buttonNext ⟨0, 2 / 5, 1 / 50, false⟩ [1 / 20] (1 / 10)
      (initButton ⟨0, 2 / 5, 1 / 50, false⟩) = (ButtonState.fully_pressed, -(1 / 50)) := by
    rw [buttonNext_full (1 / 10) _ (by norm_num [maxQ]) (by norm_num)]
    norm_num
  have h1 : (buttonStep ⟨0, 2 / 5, 1 / 50, false⟩ [HandObs.joint true (1 / 20)] (1 / 10)
      (initButton ⟨0, 2 / 5, 1 / 50, false⟩)).1
      = { curr := ButtonState.fully_pressed, prev := ButtonState.resting,
          posY := -(1 / 50), actionTriggered := false } := by
    rw [buttonStep_eq hne1, hpl1, hnext1]
    simp [initButton]
  rw [h1]
  refine ⟨buttonStep_nil _ _ _, by norm_num, by simp, rfl⟩

theorem pressList_noJoint {obs : List HandObs}
    (hall : ∀ o ∈ obs, o = HandObs.noJoint) : pressList obs = [] := by
  induction obs with
  | nil => rfl
  | cons o os ih =>
      have ho := hall o (List.mem_cons_self o os)
      subst ho
      unfold pressList at *
      rw [List.filterMap_cons]
      exact ih (fun o2 ho2 => hall o2 (List.mem_cons_of_mem _ ho2))

theorem buttonStep_rest_of_ge {p : BParams} {obs : List HandObs} {delta : ℚ}
    {b : Button} (hobs : obs ≠ []) (hds : pressList obs = [])
    (hy : ¬ b.posY < p.restingY) :
    (buttonStep p obs delta b).1
      = { curr := ButtonState.resting, prev := b.curr, posY := p.restingY,
          actionTriggered := false } := by
  rw [buttonStep_eq hobs, hds, buttonNext_nil, if_neg hy]
  simp

theorem buttonStep_recover_of_lt {p : BParams} {obs : List HandObs} {delta : ℚ}
    {b : Button} (hobs : obs ≠ []) (hds : pressList obs = [])
    (hy : b.posY < p.restingY) :
    (buttonStep p obs delta b).1
      = { curr := ButtonState.recovering, prev := b.curr,
          posY := b.posY + p.recoverySpeed * delta, actionTriggered := false } := by
  rw [buttonStep_eq hobs, hds, buttonNext_nil, if_pos hy]
  simp

theorem releaseIter_succ_right (p : BParams) (obs : List HandObs) (delta : ℚ)
    (n : ℕ) (b : Button) :
    releaseIter p obs delta (n + 1) b
      = (buttonStep p obs delta (releaseIter p obs delta n b)).1 := by
  induction n generalizing b with
  | zero => rfl
  | succ n ih =>
      show releaseIter p obs delta (n + 1) (buttonStep p obs delta b).1 = _
      rw [ih]
      rfl

theorem releaseIter_add (p : BParams) (obs : List HandObs) (delta : ℚ)
    (m k : ℕ) (b : Button) :
    releaseIter p obs delta (m + k) b
      = releaseIter p obs delta k (releaseIter p obs delta m b) := by
  induction m generalizing b with
  | zero =>
      rw [Nat.zero_add]
      rfl
  | succ m ih =>
      have h : m + 1 + k = (m + k) + 1 := by omega
      rw [h]
      show releaseIter p obs delta (m + k) (buttonStep p obs delta b).1 = _
      rw [ih]
      rfl

theorem releaseIter_lower {p : BParams} {obs : List HandObs} {delta : ℚ}
    (hobs : obs ≠ []) (hds : pressList obs = [])
    (ht : 0 ≤ p.recoverySpeed * delta) :
    ∀ (n : ℕ) (b : Button),
      min p.restingY (b.posY + (n : ℚ) * (p.recoverySpeed * delta))
        ≤ (releaseIter p obs delta n b).posY := by
  intro n
  induction n with
  | zero =>
      intro b
      simp only [releaseIter, Nat.cast_zero, zero_mul, add_zero]
      exact min_le_right _ _
  | succ n ih =>
      intro b
      show min _ _ ≤ (releaseIter p obs delta n (buttonStep p obs delta b).1).posY
      by_cases hy : b.posY < p.restingY
      · have hstep := @buttonStep_recover_of_lt p obs delta b hobs hds hy
        rw [hstep]
        have h3 := ih (buttonStep p obs delta b).1
        rw [hstep] at h3
        simp only at h3
        have h4 : b.posY + ((n : ℚ) + 1) * (p.recoverySpeed * delta)
            = b.posY + p.recoverySpeed * delta + (n : ℚ) * (p.recoverySpeed * delta) := by
          ring
        push_cast
        rw [h4]
        exact h3
      · have hstep := @buttonStep_rest_of_ge p obs delta b hobs hds hy
        rw [hstep]
        have h3 := ih (buttonStep p obs delta b).1
        rw [hstep] at h3
        simp only at h3
        have h2 : (0 : ℚ) ≤ (n : ℚ) * (p.recoverySpeed * delta) :=
          mul_nonneg (by positivity) ht
        rw [min_eq_left (by linarith)] at h3
        exact le_trans (min_le_left _ _) h3

theorem releaseIter_stay {p : BParams} {obs : List HandObs} {delta : ℚ}
    (hobs : obs ≠ []) (hds : pressList obs = []) :
    ∀ (m : ℕ) (b : Button), b.curr = ButtonState.resting → b.posY = p.restingY →
      (releaseIter p obs delta m b).curr = ButtonState.resting ∧
      (releaseIter p obs delta m b).posY = p.restingY := by
  intro m
  induction m with
  | zero => intro b h1 h2; exact ⟨h1, h2⟩
  | succ m ih =>
      intro b h1 h2
      simp only [releaseIter]
      have hy : ¬ b.posY < p.restingY := by rw [h2]; exact lt_irrefl _
      rw [buttonStep_rest_of_ge hobs hds hy]
      exact ih { curr := ButtonState.resting, prev := b.curr, posY := p.restingY,
                 actionTriggered := false } rfl rfl

/-- C6 amended: when hands are present but no fingertip joint resolves on a
frame, the frame is a release: no intrusions are counted and a depressed
button recovers, reaching `resting` after finitely many such frames.  (When
no hands are present at all, the update instead returns early and leaves
the button frozen — see the counterexample.) -/
theorem button_missing_joint_release_amended (p : BParams) (obs : List HandObs)
    (delta : ℚ) (b : Button) (hobs : obs ≠ [])
    (hall : ∀ o ∈ obs, o = HandObs.noJoint)
    (hrs : 0 < p.recoverySpeed) (hd : 0 < delta) :
    pressList obs = [] ∧
    (b.posY < p.restingY →
      (buttonStep p obs delta b).1.curr = ButtonState.recovering ∧
      (buttonStep p obs delta b).1.posY = b.posY + p.recoverySpeed * delta) ∧
    (∃ N, ∀ n, N ≤ n → (releaseIter p obs delta n b).curr = ButtonState.resting ∧
      (releaseIter p obs delta n b).posY = p.restingY) := by
  have hds := pressList_noJoint hall
  have ht : 0 < p.recoverySpeed * delta := mul_pos hrs hd
  refine ⟨hds, ?_, ?_⟩
  · intro hy
    rw [buttonStep_recover_of_lt hobs hds hy]
    exact ⟨rfl, rfl⟩
  · have hlow := releaseIter_lower hobs hds (le_of_lt ht)
      (Nat.ceil ((p.restingY - b.posY) / (p.recoverySpeed * delta))) b
    have hge : p.restingY ≤ (releaseIter p obs delta
        (Nat.ceil ((p.restingY - b.posY) / (p.recoverySpeed * delta))) b).posY := by
      have h1 : (p.restingY - b.posY) / (p.recoverySpeed * delta)
          ≤ ((Nat.ceil ((p.restingY - b.posY) / (p.recoverySpeed * delta)) : ℕ) : ℚ) :=
        Nat.le_ceil _
      have h2 : p.restingY - b.posY
          ≤ ((Nat.ceil ((p.restingY - b.posY) / (p.recoverySpeed * delta)) : ℕ) : ℚ)
            * (p.recoverySpeed * delta) := by
        have h5 := mul_le_mul_of_nonneg_right h1 (le_of_lt ht)
        rwa [div_mul_cancel₀ _ (ne_of_gt ht)] at h5
      rw [min_eq_left (by linarith)] at hlow
      exact hlow
    have hsnap : (releaseIter p obs delta
          (Nat.ceil ((p.restingY - b.posY) / (p.recoverySpeed * delta)) + 1) b).curr
          = ButtonState.resting ∧
        (releaseIter p obs delta
          (Nat.ceil ((p.restingY - b.posY) / (p.recoverySpeed * delta)) + 1) b).posY
          = p.restingY := by
      rw [releaseIter_succ_right]
      rw [buttonStep_rest_of_ge hobs hds (not_lt.mpr hge)]
      exact ⟨rfl, rfl⟩
    refine ⟨Nat.ceil ((p.restingY - b.posY) / (p.recoverySpeed * delta)) + 1, ?_⟩
    intro n hn
    obtain ⟨m, rfl⟩ : ∃ m,
        n = (Nat.ceil ((p.restingY - b.posY) / (p.recoverySpeed * delta)) + 1) + m :=
      ⟨n - (Nat.ceil ((p.restingY - b.posY) / (p.recoverySpeed * delta)) + 1), by omega⟩
    rw [releaseIter_add]
    exact releaseIter_stay hobs hds m _ hsnap.1 hsnap.2

/-- Witness for the amended C6 at a concrete input. -/
theorem button_missing_joint_release_amended_witness :
    pressList [HandObs.noJoint] = [] ∧
    ((initButton ⟨0, 2 / 5, 1 / 50, true⟩).posY < (0 : ℚ) →
      (buttonStep ⟨0, 2 / 5, 1 / 50, true⟩ [HandObs.noJoint] (1 / 10)
        (initButton ⟨0, 2 / 5, 1 / 50, true⟩)).1.curr = ButtonState.recovering ∧
      (buttonStep ⟨0, 2 / 5, 1 / 50, true⟩ [HandObs.noJoint] (1 / 10)
        (initButton ⟨0, 2 / 5, 1 / 50, true⟩)).1.posY
        = (initButton ⟨0, 2 / 5, 1 / 50, true⟩).posY + 2 / 5 * (1 / 10)) ∧
    (∃ N, ∀ n, N ≤ n →
      (releaseIter ⟨0, 2 / 5, 1 / 50, true⟩ [HandObs.noJoint] (1 / 10) n
        (initButton ⟨0, 2 / 5, 1 / 50, true⟩)).curr = ButtonState.resting ∧
      (releaseIter ⟨0, 2 / 5, 1 / 50, true⟩ [HandObs.noJoint] (1 / 10) n
        (initButton ⟨0, 2 / 5, 1 / 50, true⟩)).posY
        = (⟨0, 2 / 5, 1 / 50, true⟩ : BParams).restingY) :=
  button_missing_joint_release_amended ⟨0, 2 / 5, 1 / 50, true⟩ [HandObs.noJoint]
    (1 / 10) (initButton ⟨0, 2 / 5, 1 / 50, true⟩) (by simp)
    (by intro o ho; simpa using ho) (by norm_num) (by norm_num)

/-! ## Claim C1 -/

theorem buttonStep_full_eq {p : BParams} {obs : List HandObs} {delta : ℚ}
    {b : Button} (hf : FullPressFrame p obs) (hfpd : 0 < p.fullPressDistance) :
    buttonStep p obs delta b =
      ({ curr := ButtonState.fully_pressed, prev := b.curr,
         posY := p.restingY - p.fullPressDistance,
         actionTriggered :=
           if b.curr ≠ ButtonState.fully_pressed then
             (if p.hasAction = true ∧ b.actionTriggered = false then true
              else b.actionTriggered)
           else b.actionTriggered },
       if b.curr ≠ ButtonState.fully_pressed ∧ p.hasAction = true ∧
           b.actionTriggered = false then true else false) := by
  obtain ⟨d, rest, hds, hm⟩ := hf
  have hne := pressList_obs_ne_nil hds
  rw [buttonStep_eq hne, hds, buttonNext_full delta b hm hfpd]
  simp

theorem buttonRun_full_zero {p : BParams} (hfpd : 0 < p.fullPressDistance) :
    ∀ (fs : List (List HandObs × ℚ)) (b : Button),
      b.curr = ButtonState.fully_pressed →
      (∀ f ∈ fs, FullPressFrame p f.1) →
      (buttonRun p fs b).2 = 0 := by
  intro fs
  induction fs with
  | nil => intro b _ _; rfl
  | cons f fs ih =>
      intro b hb hall
      have hstep := @buttonStep_full_eq p f.1 f.2 b
        (hall f (List.mem_cons_self f fs)) hfpd
      simp only [buttonRun]
      rw [hstep, hb]
      simp only [ne_eq, not_true_eq_false, false_and, if_false]
      simp only [Bool.false_eq_true, if_false, Nat.zero_add]
      exact ih _ rfl (fun f2 h2 => hall f2 (List.mem_cons_of_mem f h2))

/-- C1: a press gesture held at full depth across `N > 1` consecutive
frames fires the registered action exactly once, on the first frame (the
transition into `fully_pressed` from a non-`fully_pressed` previous state),
and on any processed frame whose resulting state is not `fully_pressed` the
`actionTriggered` flag is cleared, so the action cannot fire again until
the button has left `fully_pressed`. -/
theorem button_action_fires_once (p : BParams) (f0 : List HandObs × ℚ)
    (fs : List (List HandObs × ℚ)) (b : Button)
    (hfpd : 0 < p.fullPressDistance) (hact : p.hasAction = true)
    (hcur : b.curr ≠ ButtonState.fully_pressed) (htrig : b.actionTriggered = false)
    (hmulti : fs ≠ [])
    (hall : ∀ f ∈ f0 :: fs, FullPressFrame p f.1) :
    (buttonStep p f0.1 f0.2 b).2 = true ∧
    (buttonRun p (f0 :: fs) b).2 = 1 ∧
    (∀ (obs2 : List HandObs) (delta2 : ℚ) (b2 : Button), obs2 ≠ [] →
        (buttonStep p obs2 delta2 b2).1.curr ≠ ButtonState.fully_pressed →
        (buttonStep p obs2 delta2 b2).1.actionTriggered = false) := by
  have hstep := @buttonStep_full_eq p f0.1 f0.2 b
    (hall f0 (List.mem_cons_self f0 fs)) hfpd
  refine ⟨?_, ?_, ?_⟩
  · rw [hstep]
    simp [hcur, hact, htrig]
  · simp only [buttonRun]
    rw [hstep]
    simp only [hcur, hact, htrig, ne_eq, not_false_eq_true, and_self, if_true,
      true_and, if_pos]
    have hz := buttonRun_full_zero hfpd fs
      { curr := ButtonState.fully_pressed, prev := b.curr,
        posY := p.restingY - p.fullPressDistance, actionTriggered := true } rfl
      (fun f2 h2 => hall f2 (List.mem_cons_of_mem f0 h2))
    simp only [hz]
  · intro obs2 delta2 b2 hne2 hc
    rw [buttonStep_eq hne2] at hc ⊢
    simp only at hc ⊢
    simp [hc]

theorem pressOf_pos {pd : ℚ} (h0 : 0 ≤ pd) (htol : -(16 / 10000 : ℚ) < pd) :
    pressOf (HandObs.joint true pd) = some pd := by
  simp only [pressOf]
  rw [if_pos ⟨trivial, htol⟩, max_eq_right h0]

theorem pressList_single_pos {pd : ℚ} (h0 : 0 ≤ pd)
    (htol : -(16 / 10000 : ℚ) < pd) :
    pressList [HandObs.joint true pd] = [pd] := by
  unfold pressList
  rw [List.filterMap_cons, pressOf_pos h0 htol]
  simp

/-- Witness for C1 at a concrete held press over two frames. -/
theorem button_action_fires_once_witness :
    (buttonStep ⟨0, 2 / 5, 1 / 50, true⟩ [HandObs.joint true (3 / 100)] (1 / 60)
        (initButton ⟨0, 2 / 5, 1 / 50, true⟩)).2 = true ∧
    (buttonRun ⟨0, 2 / 5, 1 / 50, true⟩
        [([HandObs.joint true (3 / 100)], 1 / 60),
         ([HandObs.joint true (3 / 100)], 1 / 60)]
        (initButton ⟨0, 2 / 5, 1 / 50, true⟩)).2 = 1 := by
  have hfull : ∀ f ∈ [(([HandObs.joint true (3 / 100)], 1 / 60) :
        List HandObs × ℚ), ([HandObs.joint true (3 / 100)], 1 / 60)],
      FullPressFrame ⟨0, 2 / 5, 1 / 50, true⟩ f.1 := by
    intro f hf
    simp only [List.mem_cons, List.not_mem_nil, or_false] at hf
    have hfp : FullPressFrame ⟨0, 2 / 5, 1 / 50, true⟩ [HandObs.joint true (3 / 100)] :=
      ⟨3 / 100, [], pressList_single_pos (by norm_num) (by norm_num),
        by norm_num [maxQ]⟩
    rcases hf with rfl | rfl
    · exact hfp
    · exact hfp
  have h := button_action_fires_once ⟨0, 2 / 5, 1 / 50, true⟩
    ([HandObs.joint true (3 / 100)], 1 / 60)
    [([HandObs.joint true (3 / 100)], 1 / 60)]
    (initButton ⟨0, 2 / 5, 1 / 50, true⟩)
    (by norm_num) rfl (by simp [initButton]) rfl (by simp) hfull
  exact ⟨h.1, h.2.1⟩

/-! ## StickGrabSystem lemmas -/

theorem idxList_get? {α : Type} :
    ∀ (l : List α) (n i : ℕ),
      (idxList n l).get? i = (l.get? i).map (fun a => (n + i, a)) := by
  intro l
  induction l with
  | nil => intro n i; simp [idxList]
  | cons a as ih =>
      intro n i
      cases i with
      | zero => simp [idxList]
      | succ i =>
          have hadd : n + 1 + i = n + (i + 1) := by omega
          simp only [idxList, List.get?_cons_succ]
          rw [ih (n + 1) i, hadd]

theorem grabFrame_sticks_get? (hands : List HandInput) (g : GrabState) (k : ℕ) :
    (grabFrame (some hands) g).sticks.get? k
      = (g.sticks.get? k).map
          (phase2Stick hands
            (hands.foldl (phase1Hand g.sticks)
              { prevBtn := g.prevBtn, flags := g.flags, attach := fun _ => none }).flags
            (hands.foldl (phase1Hand g.sticks)
              { prevBtn := g.prevBtn, flags := g.flags, attach := fun _ => none }).attach
            k) := by
  simp only [grabFrame, List.get?_map, idxList_get?, Option.map_map, Nat.zero_add]
  rfl

theorem phase2Stick_pulses (hands : List HandInput) (flags : ℕ → Bool × Bool)
    (attach : ℕ → Option ℕ) (i : ℕ) (s : StickState) :
    (¬((phase2Stick hands flags attach i s).justAttached = true ∧
       (phase2Stick hands flags attach i s).justDetached = true)) ∧
    ((phase2Stick hands flags attach i s).justAttached = true ↔
      (s.attached = false ∧ (phase2Stick hands flags attach i s).attached = true)) ∧
    ((phase2Stick hands flags attach i s).justDetached = true ↔
      (s.attached = true ∧ (phase2Stick hands flags attach i s).attached = false)) := by
  unfold phase2Stick
  by_cases ha : s.attached = false
  · simp only [ha, if_pos rfl]
    cases hatt : attach i with
    | none => simp [ha]
    | some side =>
        by_cases hf : (flags side).1 = true
        · simp [hf, ha]
        · simp [hf, ha]
  · have ha2 : s.attached = true := by
      cases h : s.attached
      · exact absurd h ha
      · rfl
    simp only [ha2, Bool.true_eq_false, if_neg (by simp : ¬(true : Bool) = false)]
    cases how : s.owner with
    | none => simp [ha2]
    | some side =>
        by_cases hsel : pressedOf hands side = false ∨ (flags side).2 = true
        · simp [hsel, ha2]
        · simp [hsel, ha2]

/-! ## Claim C7 -/

/-- C7 amended: on every frame the grab system actually processes (input
manager, XR session and hand adapters present), the pulses are never both
true and each is true exactly when the corresponding transition happened on
this frame; but on an early-returned frame the whole grab state, including
a stale pulse from the previous frame, persists unchanged. -/
theorem grab_pulse_transition_amended (hands : List HandInput) (g : GrabState)
    (k : ℕ) (sk sk2 : StickState)
    (hk : g.sticks.get? k = some sk)
    (hk2 : (grabFrame (some hands) g).sticks.get? k = some sk2) :
    (¬(sk2.justAttached = true ∧ sk2.justDetached = true)) ∧
    (sk2.justAttached = true ↔ (sk.attached = false ∧ sk2.attached = true)) ∧
    (sk2.justDetached = true ↔ (sk.attached = true ∧ sk2.attached = false)) ∧
    grabFrame none g = g := by
  have h := grabFrame_sticks_get? hands g k
  rw [hk2, hk] at h
  simp only [Option.map_some'] at h
  obtain rfl : sk2 = _ := Option.some.inj h
  have hp := phase2Stick_pulses hands
    (hands.foldl (phase1Hand g.sticks)
      { prevBtn := g.prevBtn, flags := g.flags, attach := fun _ => none }).flags
    (hands.foldl (phase1Hand g.sticks)
      { prevBtn := g.prevBtn, flags := g.flags, attach := fun _ => none }).attach
    k sk
  exact ⟨hp.1, hp.2.1, hp.2.2, rfl⟩

/-- Witness for the amended C7 at a concrete frame: one hand with a rising
edge near one unattached stick attaches it, with the pulse law holding. -/
theorem grab_pulse_transition_amended_witness :
    (¬(({ attached := true, justAttached := true, justDetached := false,
          owner := some 0, pos := ((0 : ℚ), (0 : ℚ), (0 : ℚ)) } : StickState).justAttached = true ∧
       ({ attached := true, justAttached := true, justDetached := false,
          owner := some 0, pos := ((0 : ℚ), (0 : ℚ), (0 : ℚ)) } : StickState).justDetached = true)) ∧
    (({ attached := true, justAttached := true, justDetached := false,
        owner := some 0, pos := ((0 : ℚ), (0 : ℚ), (0 : ℚ)) } : StickState).justAttached = true ↔
      (s0cex.attached = false ∧
       ({ attached := true, justAttached := true, justDetached := false,
          owner := some 0, pos := ((0 : ℚ), (0 : ℚ), (0 : ℚ)) } : StickState).attached = true)) ∧
    (({ attached := true, justAttached := true, justDetached := false,
        owner := some 0, pos := ((0 : ℚ), (0 : ℚ), (0 : ℚ)) } : StickState).justDetached = true ↔
      (s0cex.attached = true ∧
       ({ attached := true, justAttached := true, justDetached := false,
          owner := some 0, pos := ((0 : ℚ), (0 : ℚ), (0 : ℚ)) } : StickState).attached = false)) ∧
    grabFrame none g0cex = g0cex := by
  have hk : g0cex.sticks.get? 0 = some s0cex := rfl
  have hfold : ([{ side := 0, pos := some ((1 : ℚ) / 50, 0, 0), pressed := some true }].foldl
        (phase1Hand g0cex.sticks)
        { prevBtn := g0cex.prevBtn, flags := g0cex.flags, attach := fun _ => none })
      = { prevBtn := Function.update g0cex.prevBtn 0 true,
          flags := Function.update g0cex.flags 0 (true, false),
          attach := Function.update (fun _ => none) 0 (some 0) } := by
    simp only [List.foldl, phase1Hand, candidates, idxList, distSq, pickNearest,
      List.filterMap, g0cex, s0cex]
    norm_num
  have hk2 : (grabFrame (some [{ side := 0, pos := some ((1 : ℚ) / 50, 0, 0),
                                 pressed := some true }]) g0cex).sticks.get? 0
      = some { attached := true, justAttached := true, justDetached := false,
               owner := some 0, pos := ((0 : ℚ), (0 : ℚ), (0 : ℚ)) } := by
    rw [grabFrame_sticks_get?, hk]
    simp only [Option.map_some']
    rw [hfold]
    simp [phase2Stick, Function.update_same, s0cex]
  exact grab_pulse_transition_amended _ _ 0 _ _ hk hk2

/-- C7 counterexample: attach a stick on frame 1, then lose the XR session
on frame 2.  The update returns early on frame 2, so `justAttached` is
still true on a frame whose pre-state was already attached — the pulse is
not "false on every frame except the exact transition frame". -/
theorem grab_pulse_persists_cex :
    grabFrame none (grabFrame (some [{ side := 0, pos := some ((1 : ℚ) / 50, 0, 0),
                                       pressed := some true }]) g0cex)
      = grabFrame (some [{ side := 0, pos := some ((1 : ℚ) / 50, 0, 0),
                           pressed := some true }]) g0cex ∧
    ((grabFrame (some [{ side := 0, pos := some ((1 : ℚ) / 50, 0, 0),
                         pressed := some true }]) g0cex).sticks.get? 0).map
        StickState.justAttached = some true ∧
    ((grabFrame (some [{ side := 0, pos := some ((1 : ℚ) / 50, 0, 0),
                         pressed := some true }]) g0cex).sticks.get? 0).map
        StickState.attached = some true := by
  have hk : g0cex.sticks.get? 0 = some s0cex := rfl
  have hfold : ([{ side := 0, pos := some ((1 : ℚ) / 50, 0, 0), pressed := some true }].foldl
        (phase1Hand g0cex.sticks)
        { prevBtn := g0cex.prevBtn, flags := g0cex.flags, attach := fun _ => none })
      = { prevBtn := Function.update g0cex.prevBtn 0 true,
          flags := Function.update g0cex.flags 0 (true, false),
          attach := Function.update (fun _ => none) 0 (some 0) } := by
    simp only [List.foldl, phase1Hand, candidates, idxList, distSq, pickNearest,
      List.filterMap, g0cex, s0cex]
    norm_num
  have hk2 : (grabFrame (some [{ side := 0, pos := some ((1 : ℚ) / 50, 0, 0),
                                 pressed := some true }]) g0cex).sticks.get? 0
      = some { attached := true, justAttached := true, justDetached := false,
               owner := some 0, pos := ((0 : ℚ), (0 : ℚ), (0 : ℚ)) } := by
    rw [grabFrame_sticks_get?, hk]
    simp only [Option.map_some']
    rw [hfold]
    simp [phase2Stick, Function.update_same, s0cex]
  refine ⟨rfl, ?_, ?_⟩
  · rw [hk2]; rfl
  · rw [hk2]; rfl

theorem selOr (pb x : Bool) : ((pb && !x) || pb) = pb := by
  cases pb <;> cases x <;> rfl

theorem phase1Hand_attach {sticks : List StickState} {p0 : ℕ → Bool}
    (acc : Phase1Acc) (h : HandInput) (k : ℕ)
    (hpr : acc.prevBtn h.side = p0 h.side) :
    (phase1Hand sticks acc h).attach k
      = if selectsStick sticks p0 k h = true then some h.side else acc.attach k := by
  obtain ⟨side, pos, pressed⟩ := h
  simp only at hpr
  cases pos with
  | none => simp [phase1Hand, selectsStick]
  | some hpv =>
      cases pressed with
      | none => simp [phase1Hand, selectsStick]
      | some pb =>
          simp only [phase1Hand, selectsStick, hpr, selOr]
          cases hc : pickNearest (candidates sticks hpv) with
          | none => simp
          | some c =>
              by_cases hk1 : c.1 = k
              · subst hk1
                by_cases hd : c.2 < 1 / 100
                · cases pb <;> simp_all [Function.update_same]
                · cases pb
                  · simp_all
                  · simp_all
                    rw [if_neg (not_lt.mpr hd), if_neg (not_lt.mpr hd)]
              · have hupd : ∀ v, Function.update acc.attach c.1 v k = acc.attach k :=
                  fun v => Function.update_noteq (Ne.symm hk1) _ _
                by_cases hd : c.2 < 1 / 100
                · cases pb <;> simp_all
                · cases pb
                  · simp_all
                  · simp_all
                    rw [if_neg (not_lt.mpr hd)]

theorem phase1Hand_prevBtn_of_ne {sticks : List StickState}
    (acc : Phase1Acc) (h : HandInput) {s : ℕ} (hne : s ≠ h.side) :
    (phase1Hand sticks acc h).prevBtn s = acc.prevBtn s := by
  obtain ⟨side, pos, pressed⟩ := h
  simp only at hne
  cases pos with
  | none => rfl
  | some hpv =>
      cases pressed with
      | none => rfl
      | some pb =>
          simp only [phase1Hand]
          exact Function.update_noteq hne _ _

theorem phase1Hand_flags_of_ne {sticks : List StickState}
    (acc : Phase1Acc) (h : HandInput) {s : ℕ} (hne : s ≠ h.side) :
    (phase1Hand sticks acc h).flags s = acc.flags s := by
  obtain ⟨side, pos, pressed⟩ := h
  simp only at hne
  cases pos with
  | none => rfl
  | some hpv =>
      cases pressed with
      | none =>
          simp only [phase1Hand]
          exact Function.update_noteq hne _ _
      | some pb =>
          simp only [phase1Hand]
          exact Function.update_noteq hne _ _

theorem phase1Hand_flags_self {sticks : List StickState}
    (acc : Phase1Acc) {h : HandInput} {hpv : ℚ × ℚ × ℚ} {pb : Bool}
    (hp : h.pos = some hpv) (hpd : h.pressed = some pb) :
    (phase1Hand sticks acc h).flags h.side
      = (pb && !(acc.prevBtn h.side), !pb && acc.prevBtn h.side) := by
  obtain ⟨side, pos, pressed⟩ := h
  simp only at hp hpd
  subst hp
  subst hpd
  simp only [phase1Hand]
  exact Function.update_same _ _ _

theorem foldl_flags_of_forall_ne {sticks : List StickState} :
    ∀ (hands : List HandInput) (acc : Phase1Acc) (s : ℕ),
      (∀ h ∈ hands, s ≠ h.side) →
      (hands.foldl (phase1Hand sticks) acc).flags s = acc.flags s := by
  intro hands
  induction hands with
  | nil => intro acc s _; rfl
  | cons h hs ih =>
      intro acc s hne
      show (hs.foldl (phase1Hand sticks) (phase1Hand sticks acc h)).flags s = _
      rw [ih _ s (fun h2 h2m => hne h2 (List.mem_cons_of_mem h h2m)),
        phase1Hand_flags_of_ne acc h (hne h (List.mem_cons_self h hs))]

theorem foldl_attach_eq {sticks : List StickState} {p0 : ℕ → Bool} {k : ℕ} :
    ∀ (hands : List HandInput) (acc : Phase1Acc),
      hands.Pairwise (fun a b => a.side ≠ b.side) →
      (∀ h ∈ hands, acc.prevBtn h.side = p0 h.side) →
      (hands.foldl (phase1Hand sticks) acc).attach k
        = hands.foldl
            (fun a h => if selectsStick sticks p0 k h = true then some h.side else a)
            (acc.attach k) := by
  intro hands
  induction hands with
  | nil => intro acc _ _; rfl
  | cons h hs ih =>
      intro acc hpw hagree
      obtain ⟨hhead, htail⟩ := List.pairwise_cons.mp hpw
      show (hs.foldl (phase1Hand sticks) (phase1Hand sticks acc h)).attach k = _
      rw [ih (phase1Hand sticks acc h) htail
        (fun h2 h2m => by
          rw [phase1Hand_prevBtn_of_ne acc h (Ne.symm (hhead h2 h2m))]
          exact hagree h2 (List.mem_cons_of_mem h h2m))]
      rw [phase1Hand_attach acc h k (hagree h (List.mem_cons_self h hs))]
      rfl

theorem foldl_claimant_side {sticks : List StickState} {p0 : ℕ → Bool} {k : ℕ} :
    ∀ (hands : List HandInput) (a : Option HandInput),
      hands.foldl
          (fun o h => if selectsStick sticks p0 k h = true then some h.side else o)
          (a.map (fun h => h.side))
        = (hands.foldl
            (fun o h => if selectsStick sticks p0 k h = true then some h else o)
            a).map (fun h => h.side) := by
  intro hands
  induction hands with
  | nil => intro a; rfl
  | cons h hs ih =>
      intro a
      show List.foldl _ (if selectsStick sticks p0 k h = true then some h.side
        else a.map (fun h => h.side)) hs = _
      by_cases hsel : selectsStick sticks p0 k h = true
      · rw [if_pos hsel]
        have h2 := ih (some h)
        simp only [Option.map_some'] at h2
        rw [h2]
        simp [hsel]
      · rw [if_neg hsel]
        rw [ih a]
        simp [hsel]

theorem claimantF_spec {sticks : List StickState} {p0 : ℕ → Bool} {k : ℕ} :
    ∀ (hands : List HandInput) (a : Option HandInput) (h : HandInput),
      hands.foldl
          (fun o h2 => if selectsStick sticks p0 k h2 = true then some h2 else o) a
        = some h →
      (h ∈ hands ∧ selectsStick sticks p0 k h = true) ∨ a = some h := by
  intro hands
  induction hands with
  | nil => intro a h hfold; exact Or.inr hfold
  | cons h0 hs ih =>
      intro a h hfold
      rcases ih _ h hfold with hmem | heq
      · exact Or.inl ⟨List.mem_cons_of_mem h0 hmem.1, hmem.2⟩
      · simp only at heq
        by_cases hsel : selectsStick sticks p0 k h0 = true
        · rw [if_pos hsel] at heq
          obtain rfl : h0 = h := Option.some.inj heq
          exact Or.inl ⟨List.mem_cons_self h0 hs, hsel⟩
        · rw [if_neg hsel] at heq
          exact Or.inr heq

theorem foldl_flags_mem {sticks : List StickState} {p0 : ℕ → Bool} :
    ∀ (hands : List HandInput) (acc : Phase1Acc) (h : HandInput)
      (hpv : ℚ × ℚ × ℚ) (pb : Bool),
      hands.Pairwise (fun a b => a.side ≠ b.side) →
      (∀ h2 ∈ hands, acc.prevBtn h2.side = p0 h2.side) →
      h ∈ hands → h.pos = some hpv → h.pressed = some pb →
      (hands.foldl (phase1Hand sticks) acc).flags h.side
        = (pb && !(p0 h.side), !pb && p0 h.side) := by
  intro hands
  induction hands with
  | nil => intro acc h hpv pb _ _ hmem; cases hmem
  | cons h0 hs ih =>
      intro acc h hpv pb hpw hagree hmem hp hpd
      obtain ⟨hhead, htail⟩ := List.pairwise_cons.mp hpw
      rcases List.mem_cons.mp hmem with rfl | hmem2
      · show (hs.foldl (phase1Hand sticks) (phase1Hand sticks acc h)).flags h.side = _
        rw [foldl_flags_of_forall_ne hs (phase1Hand sticks acc h) h.side
          (fun h2 h2m => hhead h2 h2m)]
        rw [phase1Hand_flags_self acc hp hpd,
          hagree h (List.mem_cons_self h hs)]
      · show (hs.foldl (phase1Hand sticks) (phase1Hand sticks acc h0)).flags h.side = _
        exact ih (phase1Hand sticks acc h0) h hpv pb htail
          (fun h2 h2m => by
            rw [phase1Hand_prevBtn_of_ne acc h0 (Ne.symm (hhead h2 h2m))]
            exact hagree h2 (List.mem_cons_of_mem h0 h2m))
          hmem2 hp hpd

/-! ## Claim C5 -/

/-- C5 amended: an unattached stick becomes attached this frame iff its
last claimant — the last manipulator in processing order whose grip
position resolved, whose trigger is active (held or rising), and whose
first-listed nearest available stick is this stick within the capture
radius — has a rising trigger edge; on attachment, `attached` and
`justAttached` are set and ownership is recorded to that claimant.  (A
manipulator with a rising edge can thus be denied by a later-processed
manipulator that merely holds its trigger, because the attach map entry is
overwritten — see the counterexample.) -/
theorem stick_attach_characterization_amended (hands : List HandInput)
    (g : GrabState) (k : ℕ) (sk : StickState)
    (hpw : hands.Pairwise (fun a b => a.side ≠ b.side))
    (hk : g.sticks.get? k = some sk) (hatt : sk.attached = false) :
    ∃ sk2, (grabFrame (some hands) g).sticks.get? k = some sk2 ∧
      (match claimantF g.sticks g.prevBtn k hands with
       | none => sk2 = { sk with justAttached := false, justDetached := false }
       | some h =>
          if g.prevBtn h.side = false then
            sk2.attached = true ∧ sk2.justAttached = true ∧ sk2.owner = some h.side
          else sk2 = { sk with justAttached := false, justDetached := false }) := by
  have hget := grabFrame_sticks_get? hands g k
  rw [hk] at hget
  simp only [Option.map_some'] at hget
  have hattach : (hands.foldl (phase1Hand g.sticks)
        { prevBtn := g.prevBtn, flags := g.flags, attach := fun _ => none }).attach k
      = (claimantF g.sticks g.prevBtn k hands).map (fun h => h.side) := by
    rw [foldl_attach_eq hands _ hpw (fun h2 h2m => rfl)]
    have h2 := @foldl_claimant_side g.sticks g.prevBtn k
      hands none
    simpa [claimantF] using h2
  refine ⟨_, hget, ?_⟩
  cases hcl : claimantF g.sticks g.prevBtn k hands with
  | none =>
      have hatt2 : (hands.foldl (phase1Hand g.sticks)
          { prevBtn := g.prevBtn, flags := g.flags, attach := fun _ => none }).attach k
          = none := by rw [hattach, hcl]; rfl
      simp only [phase2Stick, hatt, if_pos rfl, hatt2]
      simp
  | some h =>
      have hselmem : h ∈ hands ∧ selectsStick g.sticks g.prevBtn k h = true := by
        rcases claimantF_spec hands none h hcl with hok | hbad
        · exact hok
        · cases hbad
      obtain ⟨hmem, hselects⟩ := hselmem
      have hsel2 := hselects
      unfold selectsStick at hsel2
      rcases hp : h.pos with _ | hpv
      · simp [hp] at hsel2
      rcases hpd : h.pressed with _ | pb
      · simp [hp, hpd] at hsel2
      rw [hp, hpd] at hsel2
      simp only [selOr, Bool.and_eq_true] at hsel2
      have hpb : pb = true := hsel2.1
      subst hpb
      have hflags := @foldl_flags_mem g.sticks g.prevBtn hands
        { prevBtn := g.prevBtn, flags := g.flags, attach := fun _ => none }
        h hpv true hpw (fun h2 h2m => rfl) hmem hp hpd
      have hatt2 : (hands.foldl (phase1Hand g.sticks)
          { prevBtn := g.prevBtn, flags := g.flags, attach := fun _ => none }).attach k
          = some h.side := by rw [hattach, hcl]; rfl
      by_cases hedge : g.prevBtn h.side = false
      · simp only []
        rw [if_pos hedge]
        rw [hedge] at hflags
        simp only [phase2Stick, hatt, if_pos rfl, hatt2, hflags]
        simp
      · have hedge2 : g.prevBtn h.side = true := by
          cases hh : g.prevBtn h.side
          · exact absurd hh hedge
          · rfl
        simp only []
        rw [if_neg hedge]
        rw [hedge2] at hflags
        simp only [phase2Stick, hatt, if_pos rfl, hatt2, hflags]
        simp

/-- Witness for the amended C5: one hand with a rising edge within capture
radius of the only (unattached) stick. -/
theorem stick_attach_characterization_amended_witness :
    ∃ sk2, (grabFrame (some [{ side := 0, pos := some ((1 : ℚ) / 50, 0, 0),
                               pressed := some true }]) g0cex).sticks.get? 0 = some sk2 ∧
      (match claimantF g0cex.sticks g0cex.prevBtn 0
          [{ side := 0, pos := some ((1 : ℚ) / 50, 0, 0), pressed := some true }] with
       | none => sk2 = { s0cex with justAttached := false, justDetached := false }
       | some h =>
          if g0cex.prevBtn h.side = false then
            sk2.attached = true ∧ sk2.justAttached = true ∧ sk2.owner = some h.side
          else sk2 = { s0cex with justAttached := false, justDetached := false }) :=
  stick_attach_characterization_amended
    [{ side := 0, pos := some ((1 : ℚ) / 50, 0, 0), pressed := some true }]
    g0cex 0 s0cex (by simp) rfl rfl

/-- C5 counterexample: hand 1 raises a rising edge with the stick as its
nearest unattached stick within 0.10, yet the stick does not become
attached, because hand 0 — processed later, merely holding its trigger with
no edge — overwrites the attach-map entry and fails the edge check.  This
refutes the "if" direction of the claimed iff. -/
theorem stick_attach_blocked_cex :
    selectsStick g5cex.sticks g5cex.prevBtn 0
      { side := 1, pos := some ((2 : ℚ) / 100, 0, 0), pressed := some true } = true ∧
    g5cex.prevBtn 1 = false ∧
    ((grabFrame (some handsB) g5cex).sticks.get? 0).map StickState.attached
      = some false ∧
    ((grabFrame (some handsB) g5cex).sticks.get? 0).map StickState.justAttached
      = some false := by
  have hk : g5cex.sticks.get? 0
      = some { attached := false, justAttached := false, justDetached := false,
               owner := none, pos := ((0 : ℚ), (0 : ℚ), (0 : ℚ)) } := rfl
  refine ⟨?_, rfl, ?_, ?_⟩
  · simp only [selectsStick, candidates, idxList, distSq, pickNearest,
      List.filterMap, g5cex]
    norm_num
  · rw [grabFrame_sticks_get?, hk]
    simp only [Option.map_some']
    norm_num [List.foldl, phase1Hand, candidates, idxList, distSq, pickNearest,
      List.filterMap, phase2Stick, Function.update, handsB, g5cex]
  · rw [grabFrame_sticks_get?, hk]
    simp only [Option.map_some']
    norm_num [List.foldl, phase1Hand, candidates, idxList, distSq, pickNearest,
      List.filterMap, phase2Stick, Function.update, handsB, g5cex]

/-! ## Claim C4 -/

theorem selectsStick_ne {sticks : List StickState} {p0 : ℕ → Bool} {k j : ℕ}
    {h : HandInput} (hsel : selectsStick sticks p0 k h = true) (hne : j ≠ k) :
    selectsStick sticks p0 j h = false := by
  rcases hp : h.pos with _ | hpv
  · simp [selectsStick, hp]
  rcases hpd : h.pressed with _ | pb
  · simp [selectsStick, hp, hpd]
  rcases hc : pickNearest (candidates sticks hpv) with _ | c
  · simp [selectsStick, hp, hpd, hc]
  · have hck : c.1 = k := by
      have h5 := hsel
      simp only [selectsStick, hp, hpd, hc, selOr, Bool.and_eq_true,
        decide_eq_true_eq] at h5
      exact h5.2.1
    simp [selectsStick, hp, hpd, hc, hck, Ne.symm hne]

theorem grabState_unattached_of_mem {g : GrabState} {j : ℕ} {sj : StickState}
    (hall : ∀ s ∈ g.sticks, s.attached = false)
    (hj : g.sticks.get? j = some sj) : sj.attached = false :=
  hall sj (List.get?_mem hj)

/-- C4 amended: when two manipulators both have active triggers in the same
frame and both select the same unattached stick as their nearest available
candidate within capture radius, exactly one attachment results, but the
winner is the *last-processed* manipulator (its `attachMap.set` overwrites
the earlier entry), regardless of which manipulator is nearer; equidistant
ties are likewise won by the last-processed manipulator, not the first. -/
theorem grab_two_edges_one_attach_amended (g : GrabState) (h1 h2 : HandInput)
    (k : ℕ) (sk : StickState)
    (hside : h1.side ≠ h2.side)
    (hk : g.sticks.get? k = some sk)
    (hallun : ∀ s ∈ g.sticks, s.attached = false)
    (hsel1 : selectsStick g.sticks g.prevBtn k h1 = true)
    (hsel2 : selectsStick g.sticks g.prevBtn k h2 = true)
    (hedge1 : g.prevBtn h1.side = false)
    (hedge2 : g.prevBtn h2.side = false) :
    ∃ sk2, (grabFrame (some [h1, h2]) g).sticks.get? k = some sk2 ∧
      sk2.attached = true ∧ sk2.justAttached = true ∧ sk2.owner = some h2.side ∧
      (∀ j sj sj2, j ≠ k → g.sticks.get? j = some sj →
        (grabFrame (some [h1, h2]) g).sticks.get? j = some sj2 →
        sj2.attached = false ∧ sj2.justAttached = false) := by
  have hpw : ([h1, h2] : List HandInput).Pairwise (fun a b => a.side ≠ b.side) := by
    simp [hside]
  have hget := grabFrame_sticks_get? [h1, h2] g k
  rw [hk] at hget
  simp only [Option.map_some'] at hget
  have hattach : ∀ m, (([h1, h2] : List HandInput).foldl (phase1Hand g.sticks)
        { prevBtn := g.prevBtn, flags := g.flags, attach := fun _ => none }).attach m
      = ([h1, h2] : List HandInput).foldl
          (fun a h => if selectsStick g.sticks g.prevBtn m h = true then some h.side else a)
          none :=
    fun m => foldl_attach_eq [h1, h2] _ hpw (fun h2m h2mm => rfl)
  have hattk : (([h1, h2] : List HandInput).foldl (phase1Hand g.sticks)
        { prevBtn := g.prevBtn, flags := g.flags, attach := fun _ => none }).attach k
      = some h2.side := by
    rw [hattach k]
    simp [hsel1, hsel2]
  obtain ⟨hpv2, hp2⟩ : ∃ hpv2, h2.pos = some hpv2 := by
    unfold selectsStick at hsel2
    rcases hp : h2.pos with _ | hpv2
    · rw [hp] at hsel2; cases hsel2
    · exact ⟨hpv2, rfl⟩
  obtain ⟨pb2, hpd2, hpb2⟩ : ∃ pb2, h2.pressed = some pb2 ∧ pb2 = true := by
    unfold selectsStick at hsel2
    rw [hp2] at hsel2
    rcases hpd : h2.pressed with _ | pb2
    · rw [hpd] at hsel2; cases hsel2
    · refine ⟨pb2, rfl, ?_⟩
      rw [hpd] at hsel2
      simp only [selOr, Bool.and_eq_true] at hsel2
      exact hsel2.1
  subst hpb2
  have hflags := @foldl_flags_mem g.sticks g.prevBtn [h1, h2]
    { prevBtn := g.prevBtn, flags := g.flags, attach := fun _ => none }
    h2 hpv2 true hpw (fun hx hxm => rfl) (by simp) hp2 hpd2
  rw [hedge2] at hflags
  have hskun : sk.attached = false := grabState_unattached_of_mem hallun hk
  have hres : phase2Stick [h1, h2]
      (([h1, h2] : List HandInput).foldl (phase1Hand g.sticks)
        { prevBtn := g.prevBtn, flags := g.flags, attach := fun _ => none }).flags
      (([h1, h2] : List HandInput).foldl (phase1Hand g.sticks)
        { prevBtn := g.prevBtn, flags := g.flags, attach := fun _ => none }).attach k sk
      = { attached := true, justAttached := true, justDetached := false,
          owner := some h2.side, pos := sk.pos } := by
    simp only [phase2Stick]
    rw [hskun, if_pos rfl, hattk]
    simp only []
    rw [hflags]
    simp
  refine ⟨_, hget, ?_, ?_, ?_, ?_⟩
  · rw [hres]
  · rw [hres]
  · rw [hres]
  · intro j sj sj2 hjk hj hj2
    have hgetj := grabFrame_sticks_get? [h1, h2] g j
    rw [hj] at hgetj
    simp only [Option.map_some'] at hgetj
    rw [hj2] at hgetj
    obtain rfl : sj2 = _ := Option.some.inj hgetj
    have hattj : (([h1, h2] : List HandInput).foldl (phase1Hand g.sticks)
          { prevBtn := g.prevBtn, flags := g.flags, attach := fun _ => none }).attach j
        = none := by
      rw [hattach j]
      simp [selectsStick_ne hsel1 hjk, selectsStick_ne hsel2 hjk]
    have hsjun : sj.attached = false := grabState_unattached_of_mem hallun hj
    have hres2 : phase2Stick [h1, h2]
        (([h1, h2] : List HandInput).foldl (phase1Hand g.sticks)
          { prevBtn := g.prevBtn, flags := g.flags, attach := fun _ => none }).flags
        (([h1, h2] : List HandInput).foldl (phase1Hand g.sticks)
          { prevBtn := g.prevBtn, flags := g.flags, attach := fun _ => none }).attach j sj
        = { sj with justAttached := false, justDetached := false } := by
      simp only [phase2Stick]
      rw [hsjun, if_pos rfl, hattj]
    constructor
    · rw [hres2]
      exact hsjun
    · rw [hres2]

/-- C4 counterexample: two hands raise rising edges against the same
unattached stick in the same frame, both within capture radius; the stick
is attached to the farther, later-processed hand (side 1, distance 0.09)
rather than the nearer one (side 0, distance 0.02), because the second
`attachMap.set` overwrites the first. -/
theorem grab_last_processed_wins_cex :
    ((grabFrame (some handsC) g0cex).sticks.get? 0).map StickState.owner
      = some (some 1) ∧
    ((grabFrame (some handsC) g0cex).sticks.get? 0).map StickState.attached
      = some true ∧
    distSq s0cex.pos ((1 : ℚ) / 50, 0, 0) < distSq s0cex.pos ((9 : ℚ) / 100, 0, 0) := by
  have hk : g0cex.sticks.get? 0 = some s0cex := rfl
  refine ⟨?_, ?_, ?_⟩
  · rw [grabFrame_sticks_get?, hk]
    simp only [Option.map_some']
    norm_num [List.foldl, phase1Hand, candidates, idxList, distSq, pickNearest,
      List.filterMap, phase2Stick, Function.update, handsC, g0cex, s0cex]
  · rw [grabFrame_sticks_get?, hk]
    simp only [Option.map_some']
    norm_num [List.foldl, phase1Hand, candidates, idxList, distSq, pickNearest,
      List.filterMap, phase2Stick, Function.update, handsC, g0cex, s0cex]
  · norm_num [distSq, s0cex]

/-- Witness for the amended C4 at the same concrete scenario. -/
theorem grab_two_edges_one_attach_amended_witness :
    ∃ sk2, (grabFrame (some [{ side := 0, pos := some ((1 : ℚ) / 50, 0, 0),
                               pressed := some true },
                             { side := 1, pos := some ((9 : ℚ) / 100, 0, 0),
                               pressed := some true }]) g0cex).sticks.get? 0 = some sk2 ∧
      sk2.attached = true ∧ sk2.justAttached = true ∧ sk2.owner = some 1 ∧
      (∀ j sj sj2, j ≠ 0 → g0cex.sticks.get? j = some sj →
        (grabFrame (some [{ side := 0, pos := some ((1 : ℚ) / 50, 0, 0),
                            pressed := some true },
                          { side := 1, pos := some ((9 : ℚ) / 100, 0, 0),
                            pressed := some true }]) g0cex).sticks.get? j = some sj2 →
        sj2.attached = false ∧ sj2.justAttached = false) :=
  grab_two_edges_one_attach_amended g0cex
    { side := 0, pos := some ((1 : ℚ) / 50, 0, 0), pressed := some true }
    { side := 1, pos := some ((9 : ℚ) / 100, 0, 0), pressed := some true }
    0 s0cex (by simp) rfl
    (by
      intro s hs
      simp only [g0cex, List.mem_singleton] at hs
      rw [hs])
    (by
      simp only [selectsStick, candidates, idxList, distSq, pickNearest,
        List.filterMap, g0cex, s0cex]
      norm_num)
    (by
      simp only [selectsStick, candidates, idxList, distSq, pickNearest,
        List.filterMap, g0cex, s0cex]
      norm_num)
    rfl rfl

/-! ## Claim C10 -/

/-- C10: while a stick is attached with a recorded owner, a frame on which
the owning hand's world position cannot be resolved (gripSpace, index
fingertip and raySpace all fail) returns early: every published axis field
and the stick offset keep their previous values; only the `grabbedHands`
bookkeeping entry is (re)confirmed. -/
theorem attached_unresolved_hand_retains_axis (sqrtFn : ℚ → ℚ)
    (at2 : ℚ → ℚ → ℚ) (p : AxisParams) (inp : AxisInput) (s : AxisState)
    (ha : inp.attached = true) (ho : inp.ownerPresent = true)
    (hp : inp.handPos = none) :
    analogStep sqrtFn at2 p inp s = { s with tracked := true } := by
  simp [analogStep, ha, ho, hp]

/-- Witness for C10 at a concrete input. -/
theorem attached_unresolved_hand_retains_axis_witness :
    analogStep ratSqrt zAt2 pAx
        { attached := true, justAttached := false, ownerPresent := true,
          handPos := none, delta := 1 / 60 }
        { offX := 1 / 50, offZ := 0, grabRef := some (0, 0, 0), tracked := true,
          stickX := 2 / 5, stickY := 0, stickAngle := 0, stickMagnitude := 2 / 5,
          isActive := true }
      = { offX := 1 / 50, offZ := 0, grabRef := some (0, 0, 0), tracked := true,
          stickX := 2 / 5, stickY := 0, stickAngle := 0, stickMagnitude := 2 / 5,
          isActive := true } :=
  attached_unresolved_hand_retains_axis ratSqrt zAt2 pAx
    { attached := true, justAttached := false, ownerPresent := true,
      handPos := none, delta := 1 / 60 }
    { offX := 1 / 50, offZ := 0, grabRef := some (0, 0, 0), tracked := true,
      stickX := 2 / 5, stickY := 0, stickAngle := 0, stickMagnitude := 2 / 5,
      isActive := true } rfl rfl rfl

/-! ## Claim C3 -/

theorem clampQ_of_nonneg {x : ℚ} (hx : 0 ≤ x) : clampQ 0 1 x = min x 1 := by
  unfold clampQ
  rw [max_eq_right (le_min (by norm_num) hx), min_comm]

theorem clamp_bounds (z : ℚ) :
    -1 ≤ max (-1) (min 1 z) ∧ max (-1) (min 1 z) ≤ 1 :=
  ⟨le_max_left _ _, max_le (by norm_num) (min_le_left _ _)⟩

theorem div_bounds_of_sq_le {a r : ℚ} (hr : 0 < r) (h : a ^ 2 ≤ r ^ 2) :
    -1 ≤ a / r ∧ a / r ≤ 1 := by
  have h1 : -r ≤ a := by nlinarith [sq_nonneg (a + r)]
  have h2 : a ≤ r := by nlinarith [sq_nonneg (a - r)]
  constructor
  · exact (le_div_iff hr).mpr (by linarith)
  · exact (div_le_one hr).mpr h2

theorem publish_move_sq_le {dx dz mR hd : ℚ} (hmr : 0 < mR) (hhd0 : 0 ≤ hd)
    (hhd2 : hd ^ 2 = dx ^ 2 + dz ^ 2) :
    (if mR < hd then dx * (mR / hd) else dx) ^ 2 +
      (if mR < hd then dz * (mR / hd) else dz) ^ 2 ≤ mR ^ 2 := by
  by_cases hlt : mR < hd
  · rw [if_pos hlt, if_pos hlt]
    have hhd : 0 < hd := lt_trans hmr hlt
    have hr1 : (dx * (mR / hd)) ^ 2 + (dz * (mR / hd)) ^ 2
        = (dx ^ 2 + dz ^ 2) * (mR / hd) ^ 2 := by ring
    rw [hr1, ← hhd2]
    have hr2 : hd ^ 2 * (mR / hd) ^ 2 = mR ^ 2 := by
      field_simp
    rw [hr2]
  · rw [if_neg hlt, if_neg hlt, ← hhd2]
    nlinarith [not_lt.mp hlt]

theorem analogStep_detached_proj (sqrtFn : ℚ → ℚ) (at2 : ℚ → ℚ → ℚ)
    (p : AxisParams) (inp : AxisInput) (s : AxisState)
    (hna : ¬(inp.attached = true ∧ inp.ownerPresent = true)) :
    (analogStep sqrtFn at2 p inp s).offX
      = (if (1 : ℚ) / 1000 < sqrtFn (s.offX ^ 2 + s.offZ ^ 2) then
          s.offX * (1 - p.returnSpeed * inp.delta) else 0) ∧
    (analogStep sqrtFn at2 p inp s).offZ
      = (if (1 : ℚ) / 1000 < sqrtFn (s.offX ^ 2 + s.offZ ^ 2) then
          s.offZ * (1 - p.returnSpeed * inp.delta) else 0) ∧
    (analogStep sqrtFn at2 p inp s).stickX
      = (if (1 : ℚ) / 1000 < sqrtFn (s.offX ^ 2 + s.offZ ^ 2) then
          (if 0 < min (sqrtFn (s.offX ^ 2 + s.offZ ^ 2) / p.maxRadius) 1 then
            s.offX / p.maxRadius else 0) else 0) ∧
    (analogStep sqrtFn at2 p inp s).stickY
      = (if (1 : ℚ) / 1000 < sqrtFn (s.offX ^ 2 + s.offZ ^ 2) then
          (if 0 < min (sqrtFn (s.offX ^ 2 + s.offZ ^ 2) / p.maxRadius) 1 then
            s.offZ / p.maxRadius else 0) else 0) ∧
    (analogStep sqrtFn at2 p inp s).stickMagnitude
      = (if (1 : ℚ) / 1000 < sqrtFn (s.offX ^ 2 + s.offZ ^ 2) then
          min (sqrtFn (s.offX ^ 2 + s.offZ ^ 2) / p.maxRadius) 1 else 0) := by
  have hs1 : (if inp.attached = true then
        (if inp.ownerPresent = true then { s with tracked := true } else s)
      else
        (if s.tracked = true then { s with tracked := false, grabRef := none }
          else s)).offX = s.offX ∧
      (if inp.attached = true then
        (if inp.ownerPresent = true then { s with tracked := true } else s)
      else
        (if s.tracked = true then { s with tracked := false, grabRef := none }
          else s)).offZ = s.offZ := by
    constructor <;> (split <;> split <;> rfl)
  simp only [analogStep]
  rw [if_neg hna]
  rcases hs1 with ⟨hx, hz⟩
  rw [hx, hz]
  refine ⟨?_, ?_, ?_, ?_, ?_⟩ <;> (split <;> rfl)

theorem analogStep_attached_proj (sqrtFn : ℚ → ℚ) (at2 : ℚ → ℚ → ℚ)
    (p : AxisParams) (inp : AxisInput) (s : AxisState)
    (gr hpv : ℚ × ℚ × ℚ)
    (ha : inp.attached = true) (ho : inp.ownerPresent = true)
    (hp : inp.handPos = some hpv)
    (hgr : (if inp.justAttached = true then some hpv else s.grabRef) = some gr) :
    (analogStep sqrtFn at2 p inp s).offX = (if p.maxRadius < sqrtFn ((hpv.1 - gr.1) ^ 2 + (hpv.2.2 - gr.2.2) ^ 2) then (hpv.1 - gr.1) * (p.maxRadius / sqrtFn ((hpv.1 - gr.1) ^ 2 + (hpv.2.2 - gr.2.2) ^ 2)) else (hpv.1 - gr.1)) ∧
    (analogStep sqrtFn at2 p inp s).offZ = (if p.maxRadius < sqrtFn ((hpv.1 - gr.1) ^ 2 + (hpv.2.2 - gr.2.2) ^ 2) then (hpv.2.2 - gr.2.2) * (p.maxRadius / sqrtFn ((hpv.1 - gr.1) ^ 2 + (hpv.2.2 - gr.2.2) ^ 2)) else (hpv.2.2 - gr.2.2)) ∧
    (analogStep sqrtFn at2 p inp s).stickX
      = max (-1) (min 1 (if 0 < min (sqrtFn ((hpv.1 - gr.1) ^ 2 + (hpv.2.2 - gr.2.2) ^ 2) / p.maxRadius) 1 then (if p.maxRadius < sqrtFn ((hpv.1 - gr.1) ^ 2 + (hpv.2.2 - gr.2.2) ^ 2) then (hpv.1 - gr.1) * (p.maxRadius / sqrtFn ((hpv.1 - gr.1) ^ 2 + (hpv.2.2 - gr.2.2) ^ 2)) else (hpv.1 - gr.1)) / p.maxRadius else 0)) ∧
    (analogStep sqrtFn at2 p inp s).stickY
      = max (-1) (min 1 (if 0 < min (sqrtFn ((hpv.1 - gr.1) ^ 2 + (hpv.2.2 - gr.2.2) ^ 2) / p.maxRadius) 1 then (if p.maxRadius < sqrtFn ((hpv.1 - gr.1) ^ 2 + (hpv.2.2 - gr.2.2) ^ 2) then (hpv.2.2 - gr.2.2) * (p.maxRadius / sqrtFn ((hpv.1 - gr.1) ^ 2 + (hpv.2.2 - gr.2.2) ^ 2)) else (hpv.2.2 - gr.2.2)) / p.maxRadius else 0)) ∧
    (analogStep sqrtFn at2 p inp s).stickMagnitude = min (sqrtFn ((hpv.1 - gr.1) ^ 2 + (hpv.2.2 - gr.2.2) ^ 2) / p.maxRadius) 1 := by
  by_cases hja : inp.justAttached = true
  · rw [if_pos hja] at hgr
    obtain rfl : hpv = gr := Option.some.inj hgr
    simp only [analogStep]
    rw [if_pos (⟨ha, ho⟩ : inp.attached = true ∧ inp.ownerPresent = true), hp]
    simp only []
    rw [if_pos hja]
    simp only []
    exact ⟨trivial, trivial, trivial, trivial, trivial⟩
  · simp only [analogStep]
    rw [if_pos (⟨ha, ho⟩ : inp.attached = true ∧ inp.ownerPresent = true), hp]
    simp only []
    rw [if_pos ha, if_pos ho, if_neg hja]
    rw [if_neg hja] at hgr
    rw [show ({ s with tracked := true } : AxisState).grabRef = s.grabRef from rfl]
    rw [hgr]
    simp only []
    exact ⟨trivial, trivial, trivial, trivial, trivial⟩

theorem attachedDelta_eq (inp : AxisInput) (s : AxisState)
    (gr hpv : ℚ × ℚ × ℚ)
    (ha : inp.attached = true) (ho : inp.ownerPresent = true)
    (hp : inp.handPos = some hpv)
    (hgr : (if inp.justAttached = true then some hpv else s.grabRef) = some gr) :
    attachedDelta inp s = some (hpv.1 - gr.1, hpv.2.2 - gr.2.2) := by
  simp only [attachedDelta]
  rw [if_pos (⟨ha, ho⟩ : inp.attached = true ∧ inp.ownerPresent = true), hp]
  simp only []
  rw [hgr]

/-- C3 (amended): if `maxRadius` is positive, the square-root
oracle is nonnegative and exact on the displacement actually fed to it
this frame, and either the stick is attached to a present owner or the
spring factor `returnSpeed * delta` lies in `[0, 2]`, then one frame of
`AnalogStickSystem.update` preserves the axis invariant (offset within
`maxRadius`, published axes within `[-1, 1]`), and on every publishing
frame the published magnitude equals
`clamp(0, 1, distance / maxRadius)`.  Without the spring-factor bound
the detached branch violates the invariant, because the lerp-back alpha
`returnSpeed * delta` is not clamped and the published `stickX`/`stickY`
of the detached branch are not re-clamped. -/
theorem stick_axis_bounds_amended (sqrtFn : ℚ → ℚ) (at2 : ℚ → ℚ → ℚ)
    (p : AxisParams) (inp : AxisInput) (s : AxisState)
    (hmr : 0 < p.maxRadius)
    (hnn : ∀ q : ℚ, 0 ≤ sqrtFn q)
    (hx : ∀ a b : ℚ, attachedDelta inp s = some (a, b) →
        sqrtFn (a ^ 2 + b ^ 2) ^ 2 = a ^ 2 + b ^ 2)
    (ht : (inp.attached = true ∧ inp.ownerPresent = true) ∨
        (0 ≤ p.returnSpeed * inp.delta ∧ p.returnSpeed * inp.delta ≤ 2))
    (hs : AxisInv p s) :
    AxisInv p (analogStep sqrtFn at2 p inp s) ∧
    ∀ d : ℚ × ℚ, stepDelta sqrtFn inp s = some d →
      (analogStep sqrtFn at2 p inp s).stickMagnitude
        = clampQ 0 1 (sqrtFn (d.1 ^ 2 + d.2 ^ 2) / p.maxRadius) := by
  obtain ⟨hoff, hX1, hX2, hY1, hY2⟩ := hs
  by_cases hao : inp.attached = true ∧ inp.ownerPresent = true
  · obtain ⟨ha, ho⟩ := hao
    rcases hp : inp.handPos with _ | hpv
    · have heq : analogStep sqrtFn at2 p inp s = { s with tracked := true } := by
        simp [analogStep, ha, ho, hp]
      have hsd : stepDelta sqrtFn inp s = none := by
        simp [stepDelta, attachedDelta, ha, ho, hp]
      rw [heq, hsd]
      exact ⟨⟨hoff, hX1, hX2, hY1, hY2⟩, fun d hd => Option.noConfusion hd⟩
    · rcases hgr : (if inp.justAttached = true then some hpv else s.grabRef)
          with _ | gr
      · have hja : inp.justAttached = false := by
          cases hjv : inp.justAttached
          · rfl
          · rw [if_pos hjv] at hgr; cases hgr
        have hgr2 : s.grabRef = none := by
          rw [hja] at hgr
          simpa using hgr
        have heq : analogStep sqrtFn at2 p inp s
            = { s with tracked := true, grabRef := some hpv } := by
          simp [analogStep, ha, ho, hp, hja, hgr2]
        have hsd : stepDelta sqrtFn inp s = none := by
          simp [stepDelta, attachedDelta, ha, ho, hp, hja, hgr2]
        rw [heq, hsd]
        exact ⟨⟨hoff, hX1, hX2, hY1, hY2⟩, fun d hd => Option.noConfusion hd⟩
      · obtain ⟨hx1, hz1, hsx, hsy, hmag⟩ :=
          analogStep_attached_proj sqrtFn at2 p inp s gr hpv ha ho hp hgr
        have hdel : attachedDelta inp s
            = some (hpv.1 - gr.1, hpv.2.2 - gr.2.2) :=
          attachedDelta_eq inp s gr hpv ha ho hp hgr
        have hhd2 := hx _ _ hdel
        have hhd0 := hnn ((hpv.1 - gr.1) ^ 2 + (hpv.2.2 - gr.2.2) ^ 2)
        constructor
        · refine ⟨?_, ?_, ?_, ?_, ?_⟩
          · rw [hx1, hz1]
            exact publish_move_sq_le hmr hhd0 hhd2
          · rw [hsx]; exact (clamp_bounds _).1
          · rw [hsx]; exact (clamp_bounds _).2
          · rw [hsy]; exact (clamp_bounds _).1
          · rw [hsy]; exact (clamp_bounds _).2
        · intro d hd
          have hsd : stepDelta sqrtFn inp s = attachedDelta inp s := by
            simp [stepDelta, ha, ho]
          rw [hsd, hdel] at hd
          obtain rfl : d = (hpv.1 - gr.1, hpv.2.2 - gr.2.2) :=
            (Option.some.inj hd).symm
          rw [hmag, clampQ_of_nonneg (div_nonneg (hnn _) hmr.le)]
  · obtain ⟨ht0, ht2⟩ := ht.resolve_left hao
    obtain ⟨px, pz, psx, psy, pmag⟩ :=
      analogStep_detached_proj sqrtFn at2 p inp s hao
    have hof1 : s.offX ^ 2 ≤ p.maxRadius ^ 2 := by nlinarith [sq_nonneg s.offZ]
    have hof2 : s.offZ ^ 2 ≤ p.maxRadius ^ 2 := by nlinarith [sq_nonneg s.offX]
    have hbx := div_bounds_of_sq_le hmr hof1
    have hbz := div_bounds_of_sq_le hmr hof2
    have h1t : (1 - p.returnSpeed * inp.delta) ^ 2 ≤ 1 := by nlinarith
    constructor
    · refine ⟨?_, ?_, ?_, ?_, ?_⟩
      · rw [px, pz]
        by_cases hdc : (1 : ℚ) / 1000 < sqrtFn (s.offX ^ 2 + s.offZ ^ 2)
        · rw [if_pos hdc, if_pos hdc]
          have key : 0 ≤ (s.offX ^ 2 + s.offZ ^ 2)
              * (1 - (1 - p.returnSpeed * inp.delta) ^ 2) :=
            mul_nonneg (by positivity) (by linarith)
          nlinarith [key, hoff]
        · rw [if_neg hdc, if_neg hdc]
          nlinarith [sq_nonneg p.maxRadius]
      · rw [psx]
        split_ifs with h1 h2 <;> first | exact hbx.1 | norm_num
      · rw [psx]
        split_ifs with h1 h2 <;> first | exact hbx.2 | norm_num
      · rw [psy]
        split_ifs with h1 h2 <;> first | exact hbz.1 | norm_num
      · rw [psy]
        split_ifs with h1 h2 <;> first | exact hbz.2 | norm_num
    · intro d hd
      have hsd : stepDelta sqrtFn inp s
          = (if (1 : ℚ) / 1000 < sqrtFn (s.offX ^ 2 + s.offZ ^ 2) then
              some (s.offX, s.offZ) else none) := by
        simp only [stepDelta]
        rw [if_neg hao]
      rw [hsd] at hd
      by_cases hdc : (1 : ℚ) / 1000 < sqrtFn (s.offX ^ 2 + s.offZ ^ 2)
      · rw [if_pos hdc] at hd
        obtain rfl : d = (s.offX, s.offZ) := (Option.some.inj hd).symm
        rw [pmag, if_pos hdc, clampQ_of_nonneg (div_nonneg (hnn _) hmr.le)]
      · rw [if_neg hdc] at hd
        exact Option.noConfusion hd

theorem ratSqrt_zero : ratSqrt 0 = 0 := by
  simp [ratSqrt]

/-- C3 (counterexample): after attaching at the origin, deflecting
fully, and detaching, a single 0.5 s spring frame (alpha
`returnSpeed * delta = 5/2`) flings the offset past the center, and on
the next frame the detached branch publishes `stickX = -3/2`, outside
`[-1, 1]` — the claimed global clamp on published axes is false. -/
theorem stick_axis_unclamped_cex :
    (analogStep ratSqrt zAt2 pAx i4cex
      (analogStep ratSqrt zAt2 pAx i3cex
        (analogStep ratSqrt zAt2 pAx i2cex
          (analogStep ratSqrt zAt2 pAx i1cex s0Ax)))).stickX = -3 / 2 ∧
    (-3 / 2 : ℚ) < -1 := by
  have hqA : ratSqrt (1 / 100 : ℚ) = 1 / 10 := by
    rw [show (1 / 100 : ℚ) = (1 / 10) ^ 2 by norm_num, ratSqrt_pow]
    norm_num
  have hqB : ratSqrt (1 / 400 : ℚ) = 1 / 20 := by
    rw [show (1 / 400 : ℚ) = (1 / 20) ^ 2 by norm_num, ratSqrt_pow]
    norm_num
  have hqC : ratSqrt (9 / 1600 : ℚ) = 3 / 40 := by
    rw [show (9 / 1600 : ℚ) = (3 / 40) ^ 2 by norm_num, ratSqrt_pow]
    norm_num
  have e1 : analogStep ratSqrt zAt2 pAx i1cex s0Ax = sAx1 := by
    norm_num [analogStep, i1cex, s0Ax, sAx1, pAx, zAt2, ratSqrt_zero]
  have e2 : analogStep ratSqrt zAt2 pAx i2cex sAx1 = sAx2 := by
    norm_num [analogStep, i2cex, sAx1, sAx2, pAx, zAt2, hqA]
  have e3 : analogStep ratSqrt zAt2 pAx i3cex sAx2 = sAx3 := by
    norm_num [analogStep, i3cex, sAx2, sAx3, pAx, zAt2, hqB]
  rw [e1, e2, e3]
  constructor
  · norm_num [analogStep, i4cex, sAx3, pAx, zAt2, hqC]
  · norm_num

/-- Witness instance of the amended axis-bounds theorem at `iW`/`sAx1`. -/
theorem stick_axis_bounds_amended_witness :
    AxisInv pAx sAx1 ∧
    (AxisInv pAx (analogStep ratSqrt zAt2 pAx iW sAx1) ∧
      ∀ d : ℚ × ℚ, stepDelta ratSqrt iW sAx1 = some d →
        (analogStep ratSqrt zAt2 pAx iW sAx1).stickMagnitude
          = clampQ 0 1 (ratSqrt (d.1 ^ 2 + d.2 ^ 2) / pAx.maxRadius)) := by
  have hsW : AxisInv pAx sAx1 := by
    norm_num [AxisInv, sAx1, pAx]
  refine ⟨hsW, stick_axis_bounds_amended ratSqrt zAt2 pAx iW sAx1 ?_
    ratSqrt_nonneg ?_ (Or.inl ⟨rfl, rfl⟩) hsW⟩
  · norm_num [pAx]
  · intro a b h
    have hdel : attachedDelta iW sAx1 = some (3 / 100, 1 / 25) := by
      norm_num [attachedDelta, iW, sAx1]
    rw [hdel] at h
    obtain ⟨rfl, rfl⟩ : 3 / 100 = a ∧ 1 / 25 = b := by
      simpa [Prod.ext_iff] using h
    rw [show ((3 / 100 : ℚ) ^ 2 + (1 / 25) ^ 2) = (1 / 20) ^ 2 by norm_num,
      ratSqrt_pow]
    norm_num

/-! ## Claim C8 -/

theorem cseq_succ (t d0 : ℚ) (n : ℕ) :
    cseq t d0 (n + 1)
      = if (1 : ℚ) / 1000 < |cseq t d0 n| * d0 then cseq t d0 n * (1 - t)
        else 0 := rfl

theorem cseq_abs_le (t d0 : ℚ) (h : |1 - t| ≤ 1) (n : ℕ) :
    |cseq t d0 (n + 1)| ≤ |cseq t d0 n| := by
  rw [cseq_succ]
  split_ifs with hc
  · rw [abs_mul]
    calc |cseq t d0 n| * |1 - t| ≤ |cseq t d0 n| * 1 :=
          mul_le_mul_of_nonneg_left h (abs_nonneg _)
      _ = |cseq t d0 n| := mul_one _
  · simp [abs_nonneg]

theorem cseq_le_pow (t d0 : ℚ) (n : ℕ) :
    |cseq t d0 n| ≤ |1 - t| ^ n := by
  induction n with
  | zero => simp [cseq]
  | succ n ih =>
    rw [cseq_succ, pow_succ]
    split_ifs with hc
    · rw [abs_mul]
      exact mul_le_mul ih (le_refl _) (abs_nonneg _)
        (pow_nonneg (abs_nonneg _) _)
    · rw [abs_zero]
      positivity

theorem springTrace_succ (sqrtFn : ℚ → ℚ) (at2 : ℚ → ℚ → ℚ)
    (p : AxisParams) (delta : ℚ) (s0 : AxisState) (n : ℕ) :
    springTrace sqrtFn at2 p delta s0 (n + 1)
      = analogStep sqrtFn at2 p (detInput delta)
          (springTrace sqrtFn at2 p delta s0 n) := rfl

/-- C8 (amended): after a detach, with no further input and with the
per-frame spring factor `returnSpeed * delta` lying strictly between 0
and 2, the stick offset follows the exponential-style coefficient
sequence `cseq` along its initial ray (each above-threshold frame
multiplies the offset by `1 - returnSpeed * delta`, so the decay rate is
governed by `returnSpeed`, not a linear snap), the distance from the
rest center is non-increasing from frame to frame, and the offset
becomes exactly 0 after finitely many frames.  Without the bound
`returnSpeed * delta < 2` the distance can grow from one frame to the
next, because the code applies the lerp alpha without clamping it to
`[0, 1]`. -/
theorem spring_return_converges_amended (sqrtFn : ℚ → ℚ)
    (at2 : ℚ → ℚ → ℚ) (p : AxisParams) (delta : ℚ) (s0 : AxisState)
    (d0 : ℚ)
    (hnn : ∀ q : ℚ, 0 ≤ sqrtFn q)
    (ht0 : 0 < p.returnSpeed * delta) (ht2 : p.returnSpeed * delta < 2)
    (hray : ∀ c : ℚ,
      sqrtFn ((c * s0.offX) ^ 2 + (c * s0.offZ) ^ 2) = |c| * d0) :
    (∀ n : ℕ,
      (springTrace sqrtFn at2 p delta s0 n).offX
          = cseq (p.returnSpeed * delta) d0 n * s0.offX ∧
        (springTrace sqrtFn at2 p delta s0 n).offZ
          = cseq (p.returnSpeed * delta) d0 n * s0.offZ) ∧
    (∀ n : ℕ,
      sqrtFn ((springTrace sqrtFn at2 p delta s0 (n + 1)).offX ^ 2
          + (springTrace sqrtFn at2 p delta s0 (n + 1)).offZ ^ 2)
        ≤ sqrtFn ((springTrace sqrtFn at2 p delta s0 n).offX ^ 2
          + (springTrace sqrtFn at2 p delta s0 n).offZ ^ 2)) ∧
    ∃ N : ℕ, ∀ n : ℕ, N ≤ n →
      (springTrace sqrtFn at2 p delta s0 n).offX = 0 ∧
      (springTrace sqrtFn at2 p delta s0 n).offZ = 0 := by
  have hd0 : 0 ≤ d0 := by
    have h2 := hnn ((1 * s0.offX) ^ 2 + (1 * s0.offZ) ^ 2)
    rw [hray 1] at h2
    simpa using h2
  have habs1 : |1 - p.returnSpeed * delta| < 1 := by
    rw [abs_lt]
    constructor <;> linarith
  have hinv : ∀ n : ℕ,
      (springTrace sqrtFn at2 p delta s0 n).offX
          = cseq (p.returnSpeed * delta) d0 n * s0.offX ∧
        (springTrace sqrtFn at2 p delta s0 n).offZ
          = cseq (p.returnSpeed * delta) d0 n * s0.offZ := by
    intro n
    induction n with
    | zero => simp [springTrace, cseq]
    | succ n ih =>
      obtain ⟨ihx, ihz⟩ := ih
      have hna : ¬((detInput delta).attached = true ∧
          (detInput delta).ownerPresent = true) := by
        simp [detInput]
      obtain ⟨px, pz, _, _, _⟩ := analogStep_detached_proj sqrtFn at2 p
        (detInput delta) (springTrace sqrtFn at2 p delta s0 n) hna
      rw [springTrace_succ, px, pz]
      simp only [detInput]
      rw [ihx, ihz, hray (cseq (p.returnSpeed * delta) d0 n),
        cseq_succ]
      constructor
      · split_ifs with hc
        · ring
        · rw [zero_mul]
      · split_ifs with hc
        · ring
        · rw [zero_mul]
  have hD : ∀ n : ℕ,
      sqrtFn ((springTrace sqrtFn at2 p delta s0 n).offX ^ 2
        + (springTrace sqrtFn at2 p delta s0 n).offZ ^ 2)
      = |cseq (p.returnSpeed * delta) d0 n| * d0 := by
    intro n
    obtain ⟨hx1, hz1⟩ := hinv n
    rw [hx1, hz1, hray]
  refine ⟨hinv, ?_, ?_⟩
  · intro n
    rw [hD, hD]
    exact mul_le_mul_of_nonneg_right
      (cseq_abs_le (p.returnSpeed * delta) d0 habs1.le n) hd0
  · obtain ⟨N, hN⟩ : ∃ N : ℕ, cseq (p.returnSpeed * delta) d0 N = 0 := by
      rcases le_or_lt d0 (1 / 1000) with hle | hgt
      · refine ⟨1, ?_⟩
        rw [show (1 : ℕ) = 0 + 1 from rfl, cseq_succ]
        rw [if_neg]
        rw [not_lt, show cseq (p.returnSpeed * delta) d0 0 = 1 from rfl,
          abs_one, one_mul]
        exact hle
      · have hd0p : 0 < d0 := lt_trans (by norm_num) hgt
        obtain ⟨N, hNpow⟩ := exists_pow_lt_of_lt_one
          (div_pos (by norm_num : (0 : ℚ) < 1 / 1000) hd0p) habs1
        refine ⟨N + 1, ?_⟩
        rw [cseq_succ, if_neg]
        rw [not_lt]
        have h1 : |cseq (p.returnSpeed * delta) d0 N| * d0
            ≤ |1 - p.returnSpeed * delta| ^ N * d0 :=
          mul_le_mul_of_nonneg_right
            (cseq_le_pow (p.returnSpeed * delta) d0 N) hd0
        have h2 : |1 - p.returnSpeed * delta| ^ N * d0
            < 1 / 1000 / d0 * d0 :=
          mul_lt_mul_of_pos_right hNpow hd0p
        have h3 : (1 / 1000 : ℚ) / d0 * d0 = 1 / 1000 :=
          div_mul_cancel₀ _ (ne_of_gt hd0p)
        linarith
    have habs : ∀ m : ℕ, N ≤ m → cseq (p.returnSpeed * delta) d0 m = 0 := by
      intro m hm
      refine Nat.le_induction hN ?_ m hm
      intro k _ ih
      rw [cseq_succ, ih]
      simp
    refine ⟨N, fun n hn => ?_⟩
    obtain ⟨hx1, hz1⟩ := hinv n
    rw [hx1, hz1, habs n hn]
    exact ⟨zero_mul _, zero_mul _⟩

/-- C8 (counterexample): one detached frame with
`returnSpeed * delta = 5 * (1/2) = 5/2 > 2` moves the stick from
distance 1/20 to distance 3/40 from the rest center — the claimed
frame-to-frame non-increase of the distance is false for long frames,
because the lerp alpha is not clamped. -/
theorem spring_distance_increases_cex :
    ratSqrt (sAx2.offX ^ 2 + sAx2.offZ ^ 2)
      < ratSqrt ((analogStep ratSqrt zAt2 pAx i3cex sAx2).offX ^ 2
          + (analogStep ratSqrt zAt2 pAx i3cex sAx2).offZ ^ 2) := by
  have hqB : ratSqrt (1 / 400 : ℚ) = 1 / 20 := by
    rw [show (1 / 400 : ℚ) = (1 / 20) ^ 2 by norm_num, ratSqrt_pow]
    norm_num
  have hqC : ratSqrt (9 / 1600 : ℚ) = 3 / 40 := by
    rw [show (9 / 1600 : ℚ) = (3 / 40) ^ 2 by norm_num, ratSqrt_pow]
    norm_num
  have e3 : analogStep ratSqrt zAt2 pAx i3cex sAx2 = sAx3 := by
    norm_num [analogStep, i3cex, sAx2, sAx3, pAx, zAt2, hqB]
  have h1 : (sAx2.offX ^ 2 + sAx2.offZ ^ 2 : ℚ) = 1 / 400 := by
    norm_num [sAx2]
  have h2 : (sAx3.offX ^ 2 + sAx3.offZ ^ 2 : ℚ) = 9 / 1600 := by
    norm_num [sAx3]
  rw [e3, h1, h2, hqB, hqC]
  norm_num

/-- Witness instance of the amended spring-return theorem on the
post-overshoot state `sAx3` with a 0.1 s frame (`alpha = 1/2`). -/
theorem spring_return_converges_amended_witness :
    ((0 : ℚ) < pAx.returnSpeed * (1 / 10)) ∧
    (pAx.returnSpeed * (1 / 10) < 2) ∧
    ∃ N : ℕ, ∀ n : ℕ, N ≤ n →
      (springTrace ratSqrt zAt2 pAx (1 / 10) sAx3 n).offX = 0 ∧
      (springTrace ratSqrt zAt2 pAx (1 / 10) sAx3 n).offZ = 0 := by
  have hray : ∀ c : ℚ,
      ratSqrt ((c * sAx3.offX) ^ 2 + (c * sAx3.offZ) ^ 2)
        = |c| * (3 / 40) := by
    intro c
    have harg : ((c * sAx3.offX) ^ 2 + (c * sAx3.offZ) ^ 2)
        = (c * (3 / 40)) ^ 2 := by
      norm_num [sAx3]
    rw [harg, ratSqrt_pow, abs_mul,
      abs_of_pos (by norm_num : (0 : ℚ) < 3 / 40)]
  exact ⟨by norm_num [pAx], by norm_num [pAx],
    (spring_return_converges_amended ratSqrt zAt2 pAx (1 / 10) sAx3
      (3 / 40) ratSqrt_nonneg (by norm_num [pAx]) (by norm_num [pAx])
      hray).2.2⟩
